import Mathlib

/-!
Verification development for the payload-sync repository.

This file gives a shallow embedding, in Lean 4, of the reactive
subscription and incremental-delta engine of the repository:

* `src/plugins/payload-sync/src/utilities/query-matcher.ts`
  (document matcher: `documentMatchesQuery`, `evaluateWhereClause`,
  `evaluateFieldCondition`, `getNestedValue`, `compareValues`);
* the change classifier inside
  `src/plugins/payload-sync/src/utilities/incremental-publisher.ts`
  (`publishIncrementalUpdates`, lines 152-182);
* `src/plugins/payload-sync/src/utilities/query-hash.ts` (`createQueryHash`);
* `src/plugins/payload-sync/src/actors/subscriptions.ts` (the subscription
  actor state and its actions), `subscription-manager.ts`,
  `dependency-tracker.ts` and the SSE endpoint cleanup in `endpoints.ts`;
* `src/plugins/payload-sync/src/utilities/schema-dependency-extractor.ts`;
* `src/plugins/payload-sync/src/hooks/afterOperation.ts` and
  `smart-publisher.ts` (fan-out orchestration);
* `src/plugins/payload-sync/src/client/view-store.ts` and the
  `PayloadViewWrapper` class of `client/payload-sync.ts`.

Modelling conventions, used throughout:

* JavaScript runtime values are modelled by the inductive type `JsVal`.
  JavaScript numbers are modelled as integers (`Int`); the queries and
  documents handled by this plugin carry only integral numbers, and
  floating-point behaviour is out of scope.  `NaN` consequently has no
  constructor; coercions that produce `NaN` in JavaScript are modelled by
  `Option`-valued coercion functions returning `none`.
* JavaScript strict equality (`===`) on objects and arrays is reference
  equality.  In every code path embedded here the two compared values come
  from distinct allocations (a stored document on one side, a parsed query
  on the other), so object/array strict equality is modelled as `false`.
* Absent object properties and the value `undefined` are both modelled by
  `JsVal.undef` (the embedded code never distinguishes them: it only ever
  applies truthiness tests or `!== undefined` comparisons).
* Asynchrony is modelled by explicit outcome values: a settled promise is a
  `PromiseOutcome`, and code that runs regardless of an outcome is a total
  function of that outcome.
-/

namespace PayloadSync

/-! ## JavaScript value model -/

/-- Model of a JavaScript runtime value as handled by the plugin (documents,
where-clauses, populate configurations, query parameters).  Numbers are
modelled as integers; see the header comment. -/
inductive JsVal where
  | undef
  | null
  | bool (b : Bool)
  | num (n : Int)
  | str (s : String)
  | arr (xs : List JsVal)
  | obj (fields : List (String × JsVal))
  deriving Repr

namespace JsVal

mutual

def beqVal : JsVal → JsVal → Bool
  | .undef, .undef => true
  | .null, .null => true
  | .bool a, .bool b => a == b
  | .num a, .num b => a == b
  | .str a, .str b => a == b
  | .arr a, .arr b => beqList a b
  | .obj a, .obj b => beqFields a b
  | _, _ => false

def beqList : List JsVal → List JsVal → Bool
  | [], [] => true
  | x :: xs, y :: ys => beqVal x y && beqList xs ys
  | _, _ => false

def beqFields : List (String × JsVal) → List (String × JsVal) → Bool
  | [], [] => true
  | (k, v) :: xs, (k', v') :: ys => k == k' && beqVal v v' && beqFields xs ys
  | _, _ => false

end

mutual

theorem beqVal_iff : ∀ a b : JsVal, beqVal a b = true ↔ a = b
  | .undef, b => by cases b <;> simp [beqVal]
  | .null, b => by cases b <;> simp [beqVal]
  | .bool x, b => by cases b <;> simp [beqVal]
  | .num x, b => by cases b <;> simp [beqVal]
  | .str x, b => by cases b <;> simp [beqVal]
  | .arr xs, b => by
      cases b <;> simp [beqVal]
      exact beqList_iff xs _
  | .obj xs, b => by
      cases b <;> simp [beqVal]
      exact beqFields_iff xs _

theorem beqList_iff : ∀ a b : List JsVal, beqList a b = true ↔ a = b
  | [], b => by cases b <;> simp [beqList]
  | x :: xs, b => by
      cases b with
      | nil => simp [beqList]
      | cons y ys =>
        simp [beqList, Bool.and_eq_true, beqVal_iff x y, beqList_iff xs ys]

theorem beqFields_iff : ∀ a b : List (String × JsVal), beqFields a b = true ↔ a = b
  | [], b => by cases b <;> simp [beqFields]
  | (k, v) :: xs, b => by
      cases b with
      | nil => simp [beqFields]
      | cons y ys =>
        obtain ⟨k', v'⟩ := y
        simp only [beqFields, Bool.and_eq_true, beqVal_iff v v', beqFields_iff xs ys,
          beq_iff_eq, List.cons.injEq, Prod.mk.injEq]

end

instance : DecidableEq JsVal := fun a b =>
  decidable_of_iff (beqVal a b = true) (beqVal_iff a b)

end JsVal

/-! ## JavaScript operational helpers

Small semantic helpers shared by all embedded functions: truthiness, the
`typeof v === 'object'` test, property access, `Object.entries`/`Object.keys`,
strict equality, and the relational operators. -/

/-- JavaScript truthiness (`Boolean(v)`).  The falsy values among the
modelled ones are `undefined`, `null`, `false`, `0` and `""`. -/
def jsTruthy : JsVal → Bool
  | .undef => false
  | .null => false
  | .bool b => b
  | .num n => n != 0
  | .str s => s != ""
  | .arr _ => true
  | .obj _ => true

/-- The JavaScript test `typeof v === 'object'` (true for objects, arrays
and `null`). -/
def jsIsObjectType : JsVal → Bool
  | .null => true
  | .arr _ => true
  | .obj _ => true
  | _ => false

/-- `Array.isArray(v)`. -/
def jsIsArray : JsVal → Bool
  | .arr _ => true
  | _ => false

/-- JavaScript strict equality (`===`).  Primitives compare by value;
objects and arrays compare by reference, which is modelled as `false`
because every embedded comparison is between distinct allocations (see the
header comment). -/
def jsStrictEq : JsVal → JsVal → Bool
  | .undef, .undef => true
  | .null, .null => true
  | .bool a, .bool b => a == b
  | .num a, .num b => a == b
  | .str a, .str b => a == b
  | _, _ => false

/-- Characters of the decimal numeral of a natural number (fuel-based,
kernel-reducible rendering of `toString`). -/
def natToCharsAux : Nat → Nat → List Char
  | 0, _ => []
  | _ + 1, n =>
      if n < 10 then [Char.ofNat (48 + n)]
      else natToCharsAux n (n / 10) ++ [Char.ofNat (48 + n % 10)]

/-- Decimal numeral of a natural number, as characters. -/
def natToChars (n : Nat) : List Char := natToCharsAux (n + 1) n

/-- Value of a list of decimal digit characters. -/
def digitsVal (ds : List Char) : Nat :=
  ds.foldl (fun acc c => acc * 10 + (c.toNat - 48)) 0

/-- Parse of a canonical decimal numeral (nonempty, digits only, no
leading zero except for `"0"` itself), as used for array index keys. -/
def charsToNat? (cs : List Char) : Option Nat :=
  match cs with
  | [] => none
  | c :: rest =>
      if c = '0' ∧ rest ≠ [] then none
      else if (c :: rest).all Char.isDigit then some (digitsVal (c :: rest))
      else none

/-- ASCII lowercasing of a string (rendering of `toLowerCase`; the data of
this repository is ASCII). -/
def strToLower (s : String) : String := String.mk (s.data.map Char.toLower)

/-- JavaScript property access `v[key]`; an absent property is `undefined`.
Objects look the key up among their fields; arrays expose `length` and
their elements under canonical numeric keys; strings expose `length`. -/
def jsGet : JsVal → String → JsVal
  | .obj fields, key => (fields.lookup key).getD .undef
  | .arr xs, key =>
      if key = "length" then .num xs.length
      else match charsToNat? key.data with
        | some i => (xs.get? i).getD .undef
        | none => .undef
  | .str s, key => if key = "length" then .num s.length else .undef
  | _, _ => JsVal.undef 

/-- `Object.entries(v)` for the object and array values on which the
embedded code calls it (the matcher only reaches it after a
`typeof v === 'object' && v !== null` guard). -/
def jsEntries : JsVal → List (String × JsVal)
  | .obj fields => fields
  | .arr xs => (List.range xs.length).zip xs |>.map (fun p => (String.mk (natToChars p.1), p.2))
  | _ => []

/-- `Object.keys(v).length`. -/
def jsKeysLength : JsVal → Nat
  | .obj fields => fields.length
  | .arr xs => xs.length
  | .str s => s.length
  | _ => 0

/-- Parse of a string by JavaScript `Number(s)` restricted to the modelled
integral numbers: surrounding whitespace is trimmed, the empty string is
`0`, an optional sign followed by decimal digits is the denoted integer,
and anything else is `NaN` (`none`). -/
def parseJsNumber (s : String) : Option Int :=
  let t := ((s.data.dropWhile Char.isWhitespace).reverse.dropWhile Char.isWhitespace).reverse
  match t with
  | [] => some 0
  | '-' :: ds =>
      if ds ≠ [] ∧ ds.all Char.isDigit then some (-(digitsVal ds : Int)) else none
  | '+' :: ds =>
      if ds ≠ [] ∧ ds.all Char.isDigit then some (digitsVal ds : Int) else none
  | ds => if ds.all Char.isDigit then some (digitsVal ds : Int) else none

/-- Numeric coercion performed by the JavaScript relational operators
(`ToNumber` after `ToPrimitive` with number hint).  `none` models `NaN`;
object/array-to-primitive coercion is modelled as `NaN`. -/
def jsToNum : JsVal → Option Int
  | .undef => none
  | .null => some 0
  | .bool b => some (if b then 1 else 0)
  | .num n => some n
  | .str s => parseJsNumber s
  | .arr _ => none
  | .obj _ => none

/-- JavaScript `a <= b`: two strings compare lexicographically, otherwise
both sides are coerced to numbers and any `NaN` makes the comparison
false. -/
def jsLe (a b : JsVal) : Bool :=
  match a, b with
  | .str s1, .str s2 => decide (s1 ≤ s2)
  | _, _ => match jsToNum a, jsToNum b with
    | some x, some y => decide (x ≤ y)
    | _, _ => false

/-- JavaScript `a < b` (same coercions as `jsLe`). -/
def jsLt (a b : JsVal) : Bool :=
  match a, b with
  | .str s1, .str s2 => decide (s1 < s2)
  | _, _ => match jsToNum a, jsToNum b with
    | some x, some y => decide (x < y)
    | _, _ => false

/-- JavaScript `a >= b`. -/
def jsGe (a b : JsVal) : Bool := jsLe b a

/-- JavaScript `a > b`. -/
def jsGt (a b : JsVal) : Bool := jsLt b a

/-- Boolean prefix test on character lists. -/
def charsPrefixOf : List Char → List Char → Bool
  | [], _ => true
  | _ :: _, [] => false
  | a :: as, b :: bs => a == b && charsPrefixOf as bs

/-- Boolean substring-at-any-position test on character lists. -/
def charsInfixOf (needle : List Char) : List Char → Bool
  | [] => charsPrefixOf needle []
  | b :: bs => charsPrefixOf needle (b :: bs) || charsInfixOf needle bs

/-- JavaScript `haystack.includes(needle)` on strings (substring test). -/
def jsIncludes (haystack needle : String) : Bool :=
  charsInfixOf needle.data haystack.data

/-- The test `typeof v === 'string'`. -/
def jsIsStringType : JsVal → Bool
  | .str _ => true
  | _ => false

/-- Lookup in an association list finds a pair of the list. -/
theorem lookup_mem {β : Type} {l : List (String × β)} {k : String} {v : β}
    (h : l.lookup k = some v) : (k, v) ∈ l := by
  induction l with
  | nil => simp [List.lookup] at h
  | cons p rest ih =>
    obtain ⟨k', v'⟩ := p
    rw [List.lookup] at h
    by_cases hk : k == k'
    · simp only [hk, if_pos] at h
      cases h
      simp only [beq_iff_eq] at hk
      subst hk
      exact List.mem_cons_self _ _
    · simp only [hk] at h
      exact List.mem_cons_of_mem _ (ih h)

/-- Auxiliary size bound: when property access returns an array, that array
is structurally smaller than the accessed value. -/
theorem sizeOf_jsGet_arr {w : JsVal} {k : String} {l : List JsVal}
    (h : jsGet w k = JsVal.arr l) : sizeOf (JsVal.arr l) < sizeOf w := by
  cases w with
  | obj fields =>
    simp only [jsGet] at h
    cases hl : fields.lookup k with
    | none => rw [hl] at h; simp at h
    | some v =>
      rw [hl] at h
      simp only [Option.getD_some] at h
      subst h
      have hmem := lookup_mem hl
      have h1 := List.sizeOf_lt_of_mem hmem
      have h2 : sizeOf (k, JsVal.arr l) = 1 + sizeOf k + sizeOf (JsVal.arr l) := rfl
      simp only [JsVal.obj.sizeOf_spec]
      omega
  | arr xs =>
    simp only [jsGet] at h
    split at h
    · simp at h
    · split at h
      · cases hg : xs.get? _ with
        | none => rw [hg] at h; simp at h
        | some v =>
          rw [hg] at h
          simp only [Option.getD_some] at h
          subst h
          have hmem := List.get?_mem hg
          have h1 := List.sizeOf_lt_of_mem hmem
          simp only [JsVal.arr.sizeOf_spec] at h1 ⊢
          omega
      · simp at h
  | undef => simp [jsGet] at h
  | null => simp [jsGet] at h
  | bool b => simp [jsGet] at h
  | num n => simp [jsGet] at h
  | str s =>
    simp only [jsGet] at h
    split at h <;> simp_all

/-! ## Document matcher (query-matcher.ts) -/

/-- Dot-splitting of a path (`path.split('.')`), structurally on the
characters. -/
def splitDotAux : List Char → List Char → List String
  | [], acc => [String.mk acc.reverse]
  | c :: rest, acc =>
      if c = '.' then String.mk acc.reverse :: splitDotAux rest []
      else splitDotAux rest (c :: acc)

/-- `path.split('.')`. -/
def splitPath (path : String) : List String := splitDotAux path.data []

/-- Embedding of `getNestedValue` (query-matcher.ts, lines 121-125):
dot-notation traversal; a falsy intermediate or an absent property yields
`undefined`. -/
def getNestedValue (obj : JsVal) (path : String) : JsVal :=
  (splitPath path).foldl
    (fun current key =>
      if jsTruthy current && jsGet current key != JsVal.undef then jsGet current key
      else JsVal.undef)
    obj

/-- Embedding of `compareValues` (query-matcher.ts, lines 130-158): strict
equality first, then the two relationship cases (populated object with a
truthy `id` against a plain string, in either direction), then strict
equality again. -/
def compareValues (fieldValue expectedValue : JsVal) : Bool :=
  if jsStrictEq fieldValue expectedValue then true
  else if jsIsObjectType fieldValue && fieldValue != JsVal.null
      && jsTruthy (jsGet fieldValue "id") && jsIsStringType expectedValue then
    jsStrictEq (jsGet fieldValue "id") expectedValue
  else if jsIsStringType fieldValue && jsIsObjectType expectedValue
      && expectedValue != JsVal.null && jsTruthy (jsGet expectedValue "id") then
    jsStrictEq fieldValue (jsGet expectedValue "id")
  else
    jsStrictEq fieldValue expectedValue

/-- Embedding of one case of the operator switch inside
`evaluateFieldCondition` (query-matcher.ts, lines 52-112): whether the
check for this operator passes (does not `return false`).  The relational
cases are the negations of the source's early-return tests; the `exists`
case is the strict comparison of the boolean presence flag against the
expected value; an unknown operator fails (after a logged warning). -/
def operatorPasses (fieldValue : JsVal) (operator : String) (expectedValue : JsVal) : Bool :=
  match operator with
  | "equals" => compareValues fieldValue expectedValue
  | "not_equals" => !compareValues fieldValue expectedValue
  | "in" =>
      jsIsArray expectedValue &&
        (match expectedValue with
          | .arr vals => vals.any (fun val => compareValues fieldValue val)
          | _ => false)
  | "not_in" =>
      !(jsIsArray expectedValue &&
        (match expectedValue with
          | .arr vals => vals.any (fun val => compareValues fieldValue val)
          | _ => false))
  | "greater_than" => !jsLe fieldValue expectedValue
  | "greater_than_equal" => !jsLt fieldValue expectedValue
  | "less_than" => !jsGe fieldValue expectedValue
  | "less_than_equal" => !jsGt fieldValue expectedValue
  | "like" =>
      match fieldValue, expectedValue with
      | .str f, .str e => jsIncludes (strToLower f) (strToLower e)
      | _, _ => false
  | "contains" =>
      match fieldValue, expectedValue with
      | .str f, .str e => jsIncludes f e
      | _, _ => false
  | "exists" =>
      jsStrictEq (.bool (fieldValue != JsVal.undef && fieldValue != JsVal.null)) expectedValue
  | _ => false

/-- Embedding of `evaluateFieldCondition` (query-matcher.ts, lines 43-116):
a non-object (or null) condition is a direct value comparison; otherwise
every operator entry of the condition object must pass. -/
def evaluateFieldCondition (doc : JsVal) (fieldPath : String) (condition : JsVal) : Bool :=
  let fieldValue := getNestedValue doc fieldPath
  if !jsIsObjectType condition || condition == JsVal.null then
    compareValues fieldValue condition
  else
    (jsEntries condition).all (fun e => operatorPasses fieldValue e.1 e.2)

mutual

/-- Embedding of `evaluateWhereClause` (query-matcher.ts, lines 15-38).
The JavaScript guards `whereClause.and && Array.isArray(whereClause.and)`
(and likewise for `or`) are rendered by matching the accessed property
against an array value: arrays are always truthy, so the truthiness
conjunct is equivalent to the array test. -/
def evaluateWhereClause (doc : JsVal) (whereClause : JsVal) : Bool :=
  if !jsTruthy whereClause || !jsIsObjectType whereClause then true
  else
    match _handv : jsGet whereClause "and" with
    | .arr conditions => whereAll doc conditions
    | _ =>
      match _horv : jsGet whereClause "or" with
      | .arr conditions => whereAny doc conditions
      | _ => (jsEntries whereClause).all (fun e => evaluateFieldCondition doc e.1 e.2)
termination_by sizeOf whereClause
decreasing_by
  · have := sizeOf_jsGet_arr _handv
    simp only [JsVal.arr.sizeOf_spec] at this
    omega
  · have := sizeOf_jsGet_arr _horv
    simp only [JsVal.arr.sizeOf_spec] at this
    omega

/-- `conditions.every(c => evaluateWhereClause(doc, c))` of the `and` branch. -/
def whereAll (doc : JsVal) : List JsVal → Bool
  | [] => true
  | c :: cs => evaluateWhereClause doc c && whereAll doc cs
termination_by l => sizeOf l
decreasing_by all_goals (simp; try omega)

/-- `conditions.some(c => evaluateWhereClause(doc, c))` of the `or` branch. -/
def whereAny (doc : JsVal) : List JsVal → Bool
  | [] => false
  | c :: cs => evaluateWhereClause doc c || whereAny doc cs
termination_by l => sizeOf l
decreasing_by all_goals (simp; try omega)

end

/-- Parameters of a registered query subscription
(`Query.params` in actors/subscriptions.ts): `where`, `sort`, `limit`,
`populate`, each an arbitrary JavaScript value (`undefined` when absent). -/
structure QueryParams where
  «where» : JsVal := .undef
  sort : JsVal := .undef
  limit : JsVal := .undef
  populate : JsVal := .undef
  deriving Repr, DecidableEq

/-- Embedding of `documentMatchesQuery` (query-matcher.ts, lines 4-10): an
absent/falsy or empty where clause matches every document. -/
def documentMatchesQuery (doc : JsVal) (subscription : QueryParams) : Bool :=
  if !jsTruthy subscription.«where» || jsKeysLength subscription.«where» == 0 then true
  else evaluateWhereClause doc subscription.«where»

/-! ## Change classifier (incremental-publisher.ts, lines 152-182) -/

/-- Write operations fanned out by the publisher. -/
inductive Operation where
  | create
  | update
  | delete
  deriving Repr, DecidableEq

/-- Change types assigned by the classifier. -/
inductive ChangeType where
  | insert
  | update
  | delete
  | upsert
  deriving Repr, DecidableEq

/-- Embedding of the change classification block of
`publishIncrementalUpdates` (incremental-publisher.ts, lines 152-182):
given the operation, the after-document `doc`, the before-document
`originalDoc` (`undefined` when absent), and the query params, computes
the change type and the payload document (`relevantDoc`), or `none` when
the change does not affect the query. -/
def classifyChange (operation : Operation) (doc originalDoc : JsVal)
    (params : QueryParams) : Option (ChangeType × JsVal) :=
  match operation with
  | .create =>
      if documentMatchesQuery doc params then some (.insert, doc) else none
  | .update =>
      let docMatches := documentMatchesQuery doc params
      let originalMatches :=
        if jsTruthy originalDoc then documentMatchesQuery originalDoc params else false
      if docMatches && originalMatches then some (.update, doc)
      else if docMatches && !originalMatches then some (.upsert, doc)
      else if !docMatches && originalMatches then some (.delete, originalDoc)
      else none
  | .delete =>
      if jsTruthy originalDoc && documentMatchesQuery originalDoc params then
        some (.delete, originalDoc)
      else none

/-- Statement of the classification table of spec section 4.6, written from
the spec's words (not from the code), for comparison with `classifyChange`:
`wasIn` is "a before-document exists and matches", `isIn` is "the
after-document matches"; `update`/`upsert`/`delete`/`none` follow the four
membership combinations, with the before-document as the `delete`
payload. -/
def classifySpecTable (operation : Operation) (before after : JsVal)
    (params : QueryParams) : Option (ChangeType × JsVal) :=
  match operation with
  | .create =>
      if documentMatchesQuery after params then some (.insert, after) else none
  | .update =>
      let wasIn := jsTruthy before && documentMatchesQuery before params
      let isIn := documentMatchesQuery after params
      if isIn && wasIn then some (.update, after)
      else if isIn && !wasIn then some (.upsert, after)
      else if !isIn && wasIn then some (.delete, before)
      else none
  | .delete =>
      if jsTruthy before && documentMatchesQuery before params then
        some (.delete, before)
      else none

/-- C1: for every filter and every pair of before/after documents, the
change classification of `publishIncrementalUpdates` agrees with the table
of spec section 4.6 for all three operations: `insert` iff the
after-document matches under `create`; the `wasIn`/`isIn` table (with the
before-document as the `delete` payload) under `update`; and `delete` with
the before-document as payload iff the before-document exists and matches
under `delete`. -/
theorem classifyChange_follows_spec_table :
    ∀ (operation : Operation) (before after : JsVal) (params : QueryParams),
      classifyChange operation after before params =
        classifySpecTable operation before after params := by
  intro operation before after params
  cases operation with
  | create => rfl
  | update =>
    simp only [classifyChange, classifySpecTable]
    cases h : jsTruthy before <;> simp
  | delete => rfl

/-! ## Claim C4: conditions on a missing intermediate path -/

/-- Amended behaviour table for claim C4 (written as the corrected
statement): result of a single-operator condition whose resolved field
value is `undefined`.  The operators `equals`, `in`, `like`, `contains`
and `exists:true` fail (except `equals` against `undefined` itself and
`in` against an array containing `undefined`), while `not_equals`,
`not_in`, all four relational operators, and `exists:false` succeed;
unknown operators fail. -/
def missingFieldConditionResult (operator : String) (expectedValue : JsVal) : Bool :=
  match operator with
  | "equals" => expectedValue == JsVal.undef
  | "not_equals" => expectedValue != JsVal.undef
  | "in" =>
      match expectedValue with
      | .arr vals => vals.any (fun val => val == JsVal.undef)
      | _ => false
  | "not_in" =>
      match expectedValue with
      | .arr vals => !vals.any (fun val => val == JsVal.undef)
      | _ => true
  | "greater_than" => true
  | "greater_than_equal" => true
  | "less_than" => true
  | "less_than_equal" => true
  | "like" => false
  | "contains" => false
  | "exists" => expectedValue == JsVal.bool false
  | _ => false

theorem compareValues_undef (v : JsVal) :
    compareValues JsVal.undef v = (v == JsVal.undef) := by
  cases v <;> rfl

theorem jsLe_undef (v : JsVal) : jsLe JsVal.undef v = false := by
  cases v <;> rfl

theorem jsLt_undef (v : JsVal) : jsLt JsVal.undef v = false := by
  cases v <;> rfl

theorem jsLe_undef_right (v : JsVal) : jsLe v JsVal.undef = false := by
  cases v <;> simp [jsLe, jsToNum]

theorem jsLt_undef_right (v : JsVal) : jsLt v JsVal.undef = false := by
  cases v <;> simp [jsLt, jsToNum]

theorem operatorPasses_undef (operator : String) (expectedValue : JsVal) :
    operatorPasses JsVal.undef operator expectedValue =
      missingFieldConditionResult operator expectedValue := by
  unfold operatorPasses missingFieldConditionResult
  split
  · exact compareValues_undef _
  · simp [compareValues_undef, bne]
  · cases expectedValue <;> simp [jsIsArray, compareValues_undef]
  · cases expectedValue <;> simp [jsIsArray, compareValues_undef]
  · simp [jsLe_undef]
  · simp [jsLt_undef]
  · simp [jsGe, jsLe_undef_right]
  · simp [jsGt, jsLt_undef_right]
  · rfl
  · rfl
  · cases expectedValue with
    | bool b => cases b <;> rfl
    | undef => rfl
    | null => rfl
    | num n => rfl
    | str t => rfl
    | arr xs => rfl
    | obj fs => rfl
  · rfl

/-- C4 amended theorem: for every document and dot-notation path whose
resolved value is `undefined` (missing intermediate), a single-operator
condition evaluates exactly to `missingFieldConditionResult`: failure for
`equals`/`in`/`like`/`contains`/`exists:true` and unknown operators (with
the `undefined`-expected exceptions), success for `not_equals`, `not_in`,
the four relational operators, and `exists:false`. -/
theorem missing_intermediate_condition_table :
    ∀ (doc : JsVal) (fieldPath operator : String) (expectedValue : JsVal),
      getNestedValue doc fieldPath = JsVal.undef →
      evaluateFieldCondition doc fieldPath (JsVal.obj [(operator, expectedValue)]) =
        missingFieldConditionResult operator expectedValue := by
  intro doc fieldPath operator expectedValue h
  unfold evaluateFieldCondition
  rw [h]
  simp [jsIsObjectType, jsEntries, operatorPasses_undef]

/-- Witness for the amended C4 theorem at a concrete input: on the empty
document the path `"a.b"` resolves to `undefined` and the condition
`{ less_than: 5 }` succeeds. -/
theorem missing_intermediate_condition_table_witness :
    evaluateFieldCondition (JsVal.obj []) "a.b"
      (JsVal.obj [("less_than", JsVal.num 5)]) = true :=
  missing_intermediate_condition_table (JsVal.obj []) "a.b" "less_than"
    (JsVal.num 5) (by decide)

/-- C4 counterexample: on the document `{}` the path `"a.b"` has a missing
intermediate (the resolved field value is `undefined`), yet the condition
`{ not_equals: "x" }` succeeds even though its operator is not
`exists: false`; the claim predicts failure for every operator other than
`exists: false`. -/
theorem missing_intermediate_not_equals_succeeds :
    getNestedValue (JsVal.obj []) "a.b" = JsVal.undef ∧
    evaluateFieldCondition (JsVal.obj []) "a.b"
      (JsVal.obj [("not_equals", JsVal.str "x")]) = true := by
  exact ⟨by decide, by decide⟩

/-! ## Subscription actor state (actors/subscriptions.ts) -/

/-- A query as carried end to end by the plugin (types.ts `FindQuery`,
`FindByIDQuery`, `CountQuery`, and the raw endpoint body fields): the
`type` and `collection` strings plus the optional parameters, each an
arbitrary JavaScript value with `undefined` standing for an absent
field. -/
structure PayloadQuery where
  type : String
  collection : String
  «where» : JsVal := .undef
  sort : JsVal := .undef
  limit : JsVal := .undef
  page : JsVal := .undef
  depth : JsVal := .undef
  populate : JsVal := .undef
  locale : JsVal := .undef
  fallbackLocale : JsVal := .undef
  id : JsVal := .undef
  deriving Repr, DecidableEq

/-- A registered query subscription (`Query` in actors/subscriptions.ts):
dates are modelled as milliseconds. -/
structure Query where
  queryKey : String
  collection : String
  queryType : String
  params : QueryParams
  lastSyncTime : Nat := 0
  deriving Repr, DecidableEq

/-- A session (`SessionSubscription` in actors/subscriptions.ts). -/
structure SessionSubscription where
  clientId : String
  queries : List Query
  lastActivity : Nat := 0
  deriving Repr, DecidableEq

/-- A forward dependency entry (the `Dependency` interface of
actors/subscriptions.ts): the query's own collection, the list of
collections it depends on, and the stored query. -/
structure DependencyEntry where
  collection : String
  dependencies : List String
  query : PayloadQuery
  deriving Repr, DecidableEq

/-- Persistent state of the `subscriptions` actor (actors/subscriptions.ts,
lines 38-44).  JavaScript string-keyed objects and the
`Array<{clientId, session}>` are modelled as insertion-ordered association
lists with unique keys. -/
structure SubscriptionsState where
  sessions : List (String × SessionSubscription) := []
  dependencies : List (String × DependencyEntry) := []
  reverseDependencies : List (String × List String) := []
  deriving Repr, DecidableEq

/-- Assignment `object[key] = value` on an association list: replace in
place when the key is present, append otherwise. -/
def setAssoc {α : Type} : List (String × α) → String → α → List (String × α)
  | [], k, v => [(k, v)]
  | (k', v') :: rest, k, v =>
      if k' = k then (k, v) :: rest else (k', v') :: setAssoc rest k v

/-- Deletion `delete object[key]` on an association list. -/
def delAssoc {α : Type} : List (String × α) → String → List (String × α)
  | [], _ => []
  | (k', v') :: rest, k =>
      if k' = k then delAssoc rest k else (k', v') :: delAssoc rest k

/-- The `getSession` action: `sessions.find(s => s.clientId === clientId)?.session`. -/
def getSession (st : SubscriptionsState) (clientId : String) : Option SessionSubscription :=
  st.sessions.lookup clientId

/-- The `deleteSession` action:
`sessions.filter(s => s.clientId !== clientId)`. -/
def deleteSession (st : SubscriptionsState) (clientId : String) : SubscriptionsState :=
  { st with sessions := st.sessions.filter (fun s => s.1 ≠ clientId) }

/-- The `addDependencies` action (actors/subscriptions.ts, lines 95-105):
`state.dependencies[queryKey] = dependencyObject`. -/
def addDependencies (st : SubscriptionsState) (queryKey : String)
    (dependencyObject : DependencyEntry) : SubscriptionsState :=
  { st with dependencies := setAssoc st.dependencies queryKey dependencyObject }

/-- One iteration of the `addReverseDependencies` loop
(actors/subscriptions.ts, lines 109-118): create the collection's list if
absent, then push the query key if not already included. -/
def addReverseOne (rd : List (String × List String)) (queryKey depCollection : String) :
    List (String × List String) :=
  match rd.lookup depCollection with
  | none => setAssoc rd depCollection [queryKey]
  | some arr => if queryKey ∈ arr then rd else setAssoc rd depCollection (arr ++ [queryKey])

/-- The `addReverseDependencies` action: `dependencies.forEach(...)`. -/
def addReverseDependencies (st : SubscriptionsState) (queryKey : String) :
    List String → SubscriptionsState
  | [] => st
  | c :: rest =>
      addReverseDependencies
        { st with reverseDependencies := addReverseOne st.reverseDependencies queryKey c }
        queryKey rest

/-- One iteration of the `removeDependencies` loop (actors/subscriptions.ts,
lines 124-132): filter the query key out of the collection's list, then
delete the list when it became empty. -/
def removeReverseOne (rd : List (String × List String)) (queryKey depCollection : String) :
    List (String × List String) :=
  match rd.lookup depCollection with
  | none => rd
  | some arr =>
      let arr' := arr.filter (fun qk => qk ≠ queryKey)
      if arr' = [] then delAssoc rd depCollection else setAssoc rd depCollection arr'

/-- The loop of `removeDependencies` over the entry's dependency list. -/
def removeReverseAll (rd : List (String × List String)) (queryKey : String) :
    List String → List (String × List String)
  | [] => rd
  | c :: rest => removeReverseAll (removeReverseOne rd queryKey c) queryKey rest

/-- The `removeDependencies` action (actors/subscriptions.ts, lines
120-135): a missing entry is a no-op; otherwise every collection of the
entry's dependency list is cleaned in the reverse index and the forward
entry is deleted. -/
def removeDependencies (st : SubscriptionsState) (queryKey : String) : SubscriptionsState :=
  match st.dependencies.lookup queryKey with
  | none => st
  | some queryDeps =>
      { st with
        reverseDependencies :=
          removeReverseAll st.reverseDependencies queryKey queryDeps.dependencies,
        dependencies := delAssoc st.dependencies queryKey }

/-- The paired registration performed by `registerQueryDependencies`
(dependency-tracker.ts, lines 156-162): store the forward entry with
`addDependencies`, then add the reverse entries with
`addReverseDependencies`. -/
def registerDependencyPair (st : SubscriptionsState) (queryKey : String)
    (entry : DependencyEntry) : SubscriptionsState :=
  addReverseDependencies (addDependencies st queryKey entry) queryKey entry.dependencies

/-- JavaScript runtime errors surfaced by the embedded code. -/
inductive JsError where
  | typeError
  deriving Repr, DecidableEq

/-- Embedding of `removeSession` (subscription-manager.ts, lines 97-112).
The source iterates `for (const [queryKey] of session.queries)`: each
element of `session.queries` is a plain `Query` object, and
array-destructuring a non-iterable object throws a `TypeError`, so the
loop throws on its first element whenever the session owns at least one
query — no dependency is unregistered and the session is not deleted.
With an empty query list the loop body never runs and the session is
deleted. -/
def removeSession (st : SubscriptionsState) (clientId : String) :
    Except JsError SubscriptionsState :=
  match getSession st clientId with
  | none => .ok st
  | some session =>
      match session.queries with
      | [] => .ok (deleteSession st clientId)
      | _ :: _ => .error .typeError

/-- Embedding of the SSE abort-listener cleanup (endpoints.ts, lines
286-295): when a session's push channel closes, the handler looks the
client up, deletes the stored session via the actor's `deleteSession`,
and removes the channel entry; it performs no dependency cleanup. -/
def sseAbortCleanup (st : SubscriptionsState) (clients : List String)
    (clientId : String) : SubscriptionsState × List String :=
  if clients.contains clientId then
    (deleteSession st clientId, clients.filter (fun c => c ≠ clientId))
  else (st, clients)

/-! ## Claim C2: session removal and dependency cleanup -/

/-- Concrete failing input for claim C2: a session owning one registered
query. -/
def c2Query : Query :=
  { queryKey := "find.tasks.x", collection := "tasks", queryType := "find",
    params := { «where» := JsVal.obj [("status", JsVal.str "active")] } }

/-- The dependency entry registered for `c2Query`. -/
def c2Entry : DependencyEntry :=
  { collection := "tasks", dependencies := ["tasks"],
    query := { type := "find", collection := "tasks",
               «where» := JsVal.obj [("status", JsVal.str "active")] } }

/-- The state holding the `c2Query` session and its dependency entry. -/
def c2State : SubscriptionsState :=
  { sessions := [("c1", { clientId := "c1", queries := [c2Query] })],
    dependencies := [("find.tasks.x", c2Entry)],
    reverseDependencies := [("tasks", ["find.tasks.x"])] }

/-- C2, evaluated at the failing input: with a session owning one query,
the explicit `removeSession` call throws a `TypeError` (array
destructuring of a plain query object) before removing anything, and the
channel-close cleanup deletes the session and the channel but leaves the
query's Dependency Entry and its reverse-index entry untouched — both
removal paths violate the claimed cascade into the Dependency Index. -/
theorem session_removal_leaves_dependencies :
    removeSession c2State "c1" = .error .typeError ∧
    (sseAbortCleanup c2State ["c1"] "c1").1.dependencies = c2State.dependencies ∧
    (sseAbortCleanup c2State ["c1"] "c1").1.reverseDependencies =
      c2State.reverseDependencies ∧
    (sseAbortCleanup c2State ["c1"] "c1").1.dependencies.lookup "find.tasks.x" =
      some c2Entry ∧
    getSession (sseAbortCleanup c2State ["c1"] "c1").1 "c1" = none := by
  refine ⟨rfl, by decide, by decide, by decide, by decide⟩

/-! ## Claim C3: forward/reverse dependency map consistency -/

/-- Reverse-index membership: the query key is listed under the collection
in the reverse dependency map. -/
def revMem (st : SubscriptionsState) (collection queryKey : String) : Bool :=
  match st.reverseDependencies.lookup collection with
  | some arr => decide (queryKey ∈ arr)
  | none => false

/-- Forward membership: the collection is in the query key's registered
dependency set. -/
def depMem (st : SubscriptionsState) (queryKey collection : String) : Bool :=
  match st.dependencies.lookup queryKey with
  | some e => decide (collection ∈ e.dependencies)
  | none => false

/-- Reverse-index consistency invariant of claim C3: a query key is listed
under a collection in the reverse index exactly when that collection is in
the query key's registered dependency set. -/
def DependencyInvariant (st : SubscriptionsState) : Prop :=
  ∀ (queryKey collection : String),
    revMem st collection queryKey = depMem st queryKey collection

/-- Dependency-tracker operations, as sequenced by the callers:
`registerQueryDependencies` (the `addDependencies` +
`addReverseDependencies` pair) and `removeDependencies`. -/
inductive DepOp where
  | register (queryKey : String) (entry : DependencyEntry)
  | remove (queryKey : String)
  deriving Repr, DecidableEq

/-- Application of a sequence of dependency-tracker operations. -/
def applyDepOps (st : SubscriptionsState) : List DepOp → SubscriptionsState
  | [] => st
  | .register k e :: rest => applyDepOps (registerDependencyPair st k e) rest
  | .remove k :: rest => applyDepOps (removeDependencies st k) rest

/-- Freshness of a sequence of operations: every `register` hits a query
key with no current forward entry. -/
def freshOps (st : SubscriptionsState) : List DepOp → Bool
  | [] => true
  | .register k e :: rest =>
      (st.dependencies.lookup k).isNone && freshOps (registerDependencyPair st k e) rest
  | .remove k :: rest => freshOps (removeDependencies st k) rest

theorem lookup_setAssoc_self {α : Type} (l : List (String × α)) (k : String) (v : α) :
    (setAssoc l k v).lookup k = some v := by
  induction l with
  | nil => simp [setAssoc, List.lookup_cons]
  | cons p rest ih =>
    obtain ⟨k', v'⟩ := p
    by_cases h : k' = k
    · subst h
      simp [setAssoc, List.lookup_cons]
    · rw [setAssoc, if_neg h, List.lookup_cons, beq_false_of_ne (Ne.symm h)]
      exact ih

theorem lookup_setAssoc_ne {α : Type} (l : List (String × α)) {k k' : String} (v : α)
    (h : k' ≠ k) : (setAssoc l k v).lookup k' = l.lookup k' := by
  induction l with
  | nil => simp [setAssoc, List.lookup_cons, beq_false_of_ne h]
  | cons p rest ih =>
    obtain ⟨k'', v''⟩ := p
    by_cases h2 : k'' = k
    · subst h2
      rw [setAssoc, if_pos rfl, List.lookup_cons, List.lookup_cons,
        beq_false_of_ne h]
    · rw [setAssoc, if_neg h2, List.lookup_cons, List.lookup_cons, ih]

theorem lookup_delAssoc_self {α : Type} (l : List (String × α)) (k : String) :
    (delAssoc l k).lookup k = none := by
  induction l with
  | nil => simp [delAssoc]
  | cons p rest ih =>
    obtain ⟨k', v'⟩ := p
    by_cases h : k' = k
    · subst h
      rw [delAssoc, if_pos rfl]
      exact ih
    · rw [delAssoc, if_neg h, List.lookup_cons, beq_false_of_ne (Ne.symm h)]
      exact ih

theorem lookup_delAssoc_ne {α : Type} (l : List (String × α)) {k k' : String}
    (h : k' ≠ k) : (delAssoc l k).lookup k' = l.lookup k' := by
  induction l with
  | nil => simp [delAssoc]
  | cons p rest ih =>
    obtain ⟨k'', v''⟩ := p
    by_cases h2 : k'' = k
    · subst h2
      rw [delAssoc, if_pos rfl, List.lookup_cons, beq_false_of_ne h]
      exact ih
    · rw [delAssoc, if_neg h2, List.lookup_cons, List.lookup_cons, ih]

/-- Reverse-index membership at the list level. -/
def revListMem (rd : List (String × List String)) (collection queryKey : String) : Bool :=
  match rd.lookup collection with
  | some arr => decide (queryKey ∈ arr)
  | none => false

theorem revMem_eq_revListMem (st : SubscriptionsState) (c qk : String) :
    revMem st c qk = revListMem st.reverseDependencies c qk := rfl

theorem revListMem_addReverseOne (rd : List (String × List String)) (k c₀ c qk : String) :
    revListMem (addReverseOne rd k c₀) c qk =
      ((decide (qk = k) && decide (c = c₀)) || revListMem rd c qk) := by
  rw [Bool.eq_iff_iff]
  unfold addReverseOne
  cases hl : rd.lookup c₀ with
  | none =>
    by_cases hc : c = c₀
    · subst hc
      simp [revListMem, lookup_setAssoc_self, hl]
    · simp [revListMem, lookup_setAssoc_ne _ _ hc, hc]
  | some arr =>
    by_cases hk : k ∈ arr
    · simp only [hk, if_pos]
      by_cases hc : c = c₀
      · subst hc
        simp only [revListMem, hl]
        by_cases hq : qk = k
        · subst hq
          simp [hk]
        · simp [hq]
      · simp [revListMem, hc]
    · simp only [hk, if_neg, Bool.false_eq_true, not_false_eq_true]
      by_cases hc : c = c₀
      · subst hc
        simp only [revListMem, lookup_setAssoc_self, hl]
        simp [List.mem_append]
        tauto
      · simp [revListMem, lookup_setAssoc_ne _ _ hc, hc]

theorem revMem_addReverseDependencies (st : SubscriptionsState) (k : String)
    (deps : List String) (c qk : String) :
    revMem (addReverseDependencies st k deps) c qk =
      ((decide (qk = k) && decide (c ∈ deps)) || revMem st c qk) := by
  induction deps generalizing st with
  | nil => simp [addReverseDependencies]
  | cons c₀ rest ih =>
    rw [addReverseDependencies, ih]
    rw [Bool.eq_iff_iff]
    simp only [revMem_eq_revListMem, revListMem_addReverseOne]
    simp [List.mem_cons]
    try tauto

theorem dependencies_addReverseDependencies (st : SubscriptionsState) (k : String)
    (deps : List String) :
    (addReverseDependencies st k deps).dependencies = st.dependencies := by
  induction deps generalizing st with
  | nil => rfl
  | cons c₀ rest ih => rw [addReverseDependencies, ih]

theorem mem_filter_ne (arr : List String) (qk k : String) :
    qk ∈ arr.filter (fun q => q ≠ k) ↔ (qk ∈ arr ∧ qk ≠ k) := by
  simp [List.mem_filter]

theorem revListMem_removeReverseOne (rd : List (String × List String)) (k c₀ c qk : String) :
    revListMem (removeReverseOne rd k c₀) c qk =
      (revListMem rd c qk && !(decide (qk = k) && decide (c = c₀))) := by
  unfold removeReverseOne
  cases hl : rd.lookup c₀ with
  | none =>
    by_cases hc : c = c₀
    · subst hc
      simp [revListMem, hl]
    · simp [revListMem, hc]
  | some arr =>
    simp only
    by_cases hempty : arr.filter (fun q => q ≠ k) = []
    · rw [if_pos hempty]
      by_cases hc : c = c₀
      · subst hc
        rw [Bool.eq_iff_iff]
        simp only [revListMem, lookup_delAssoc_self, hl]
        constructor
        · intro hfalse
          simp at hfalse
        · intro hand
          rw [Bool.and_eq_true, decide_eq_true_iff] at hand
          obtain ⟨hmem, hneq⟩ := hand
          by_cases hq : qk = k
          · subst hq
            simp at hneq
          · have : qk ∈ arr.filter (fun q => q ≠ k) := (mem_filter_ne arr qk k).mpr ⟨hmem, hq⟩
            rw [hempty] at this
            simp at this
      · simp [revListMem, lookup_delAssoc_ne _ hc, hc]
    · rw [if_neg hempty]
      by_cases hc : c = c₀
      · subst hc
        rw [Bool.eq_iff_iff]
        simp only [revListMem, lookup_setAssoc_self, hl, decide_eq_true_iff,
          mem_filter_ne, Bool.and_eq_true, Bool.not_eq_true', Bool.and_eq_false_iff,
          decide_eq_false_iff_not]
        constructor
        · rintro ⟨hmem, hne⟩
          exact ⟨hmem, Or.inl hne⟩
        · rintro ⟨hmem, hor⟩
          refine ⟨hmem, ?_⟩
          rcases hor with hne | hne
          · exact hne
          · exact absurd trivial hne
      · simp [revListMem, lookup_setAssoc_ne _ _ hc, hc]

theorem revListMem_removeReverseAll (rd : List (String × List String)) (k : String)
    (deps : List String) (c qk : String) :
    revListMem (removeReverseAll rd k deps) c qk =
      (revListMem rd c qk && !(decide (qk = k) && decide (c ∈ deps))) := by
  induction deps generalizing rd with
  | nil => simp [removeReverseAll]
  | cons c₀ rest ih =>
    rw [removeReverseAll, ih, revListMem_removeReverseOne]
    rw [Bool.eq_iff_iff]
    simp [List.mem_cons]
    try tauto

theorem depMem_registerDependencyPair (st : SubscriptionsState) (k : String)
    (e : DependencyEntry) (qk c : String) :
    depMem (registerDependencyPair st k e) qk c =
      if qk = k then decide (c ∈ e.dependencies) else depMem st qk c := by
  unfold depMem registerDependencyPair
  rw [dependencies_addReverseDependencies]
  by_cases hq : qk = k
  · subst hq
    simp [addDependencies, lookup_setAssoc_self]
  · simp [addDependencies, lookup_setAssoc_ne _ _ hq, hq]

theorem revMem_registerDependencyPair (st : SubscriptionsState) (k : String)
    (e : DependencyEntry) (c qk : String) :
    revMem (registerDependencyPair st k e) c qk =
      ((decide (qk = k) && decide (c ∈ e.dependencies)) || revMem st c qk) := by
  unfold registerDependencyPair
  rw [revMem_addReverseDependencies]
  rfl

/-- A freshly registered query key satisfies the invariant step. -/
theorem dependencyInvariant_register_fresh {st : SubscriptionsState} {k : String}
    {e : DependencyEntry} (hfresh : st.dependencies.lookup k = none)
    (hinv : DependencyInvariant st) :
    DependencyInvariant (registerDependencyPair st k e) := by
  intro qk c
  rw [revMem_registerDependencyPair, depMem_registerDependencyPair]
  by_cases hq : qk = k
  · subst hq
    have hdep : depMem st qk c = false := by
      simp [depMem, hfresh]
    rw [← hinv qk c] at hdep
    simp [hdep]
  · simp [hq, hinv qk c]

/-- Removal always preserves the invariant. -/
theorem dependencyInvariant_remove {st : SubscriptionsState} (k : String)
    (hinv : DependencyInvariant st) :
    DependencyInvariant (removeDependencies st k) := by
  intro qk c
  unfold removeDependencies
  cases hl : st.dependencies.lookup k with
  | none => exact hinv qk c
  | some entry =>
    simp only
    rw [show revMem { st with
          reverseDependencies := removeReverseAll st.reverseDependencies k entry.dependencies,
          dependencies := delAssoc st.dependencies k } c qk =
        revListMem (removeReverseAll st.reverseDependencies k entry.dependencies) c qk from rfl]
    rw [revListMem_removeReverseAll]
    by_cases hq : qk = k
    · subst hq
      have hrev : revMem st c qk = decide (c ∈ entry.dependencies) := by
        rw [hinv qk c]
        simp [depMem, hl]
      rw [show revListMem st.reverseDependencies c qk = revMem st c qk from rfl, hrev]
      simp [depMem, lookup_delAssoc_self]
    · rw [show revListMem st.reverseDependencies c qk = revMem st c qk from rfl, hinv qk c]
      simp [depMem, hq, lookup_delAssoc_ne _ hq]

/-- C3 amended theorem: the forward and reverse dependency maps stay
mutually consistent (`queryKey` under `c` in the reverse index iff `c` in
`dependencies[queryKey]`) under every sequence of register/remove
operations in which no currently-registered query key is re-registered;
and registration always fully replaces the forward entry.  (Re-registering
a live key with a changed dependency set breaks the invariant — see the
counterexample — because `addReverseDependencies` only adds reverse
entries and never removes stale ones.) -/
theorem dependency_maps_consistency :
    (∀ (st : SubscriptionsState) (ops : List DepOp), DependencyInvariant st →
        freshOps st ops = true → DependencyInvariant (applyDepOps st ops)) ∧
    (∀ (st : SubscriptionsState) (k : String) (e : DependencyEntry),
        (registerDependencyPair st k e).dependencies.lookup k = some e) := by
  constructor
  · intro st ops
    induction ops generalizing st with
    | nil => intro hinv _; exact hinv
    | cons op rest ih =>
      intro hinv hfresh
      cases op with
      | register k e =>
        rw [freshOps, Bool.and_eq_true, Option.isNone_iff_eq_none] at hfresh
        exact ih _ (dependencyInvariant_register_fresh hfresh.1 hinv) hfresh.2
      | remove k =>
        rw [freshOps] at hfresh
        exact ih _ (dependencyInvariant_remove k hinv) hfresh
  · intro st k e
    unfold registerDependencyPair
    rw [dependencies_addReverseDependencies]
    exact lookup_setAssoc_self _ _ _

/-- First concrete dependency entry for the C3 scenario (depends on
collection `a`). -/
def c3Entry1 : DependencyEntry :=
  { collection := "tasks", dependencies := ["a"],
    query := { type := "find", collection := "tasks" } }

/-- Second concrete dependency entry for the C3 scenario (depends on
collection `b`). -/
def c3Entry2 : DependencyEntry :=
  { collection := "tasks", dependencies := ["b"],
    query := { type := "find", collection := "tasks" } }

/-- The state after registering `k` with dependency set `{a}` and then
re-registering it with `{b}`. -/
def c3State : SubscriptionsState :=
  applyDepOps {} [DepOp.register "k" c3Entry1, DepOp.register "k" c3Entry2]

/-- C3 counterexample: after re-registering query key `k` with a new
dependency set, the stale reverse-index entry under the old collection `a`
remains while the forward entry no longer lists `a`, so the claimed
iff-consistency fails. -/
theorem reregistration_leaves_stale_reverse_entry :
    revMem c3State "a" "k" = true ∧ depMem c3State "k" "a" = false ∧
    ¬ DependencyInvariant c3State :=
  ⟨by decide, by decide, fun h => absurd (h "k" "a") (by decide)⟩

/-- Witness for the C3 amended theorem at a concrete fresh sequence
(register, remove, register again after removal), starting from the empty
state. -/
theorem dependency_maps_consistency_witness :
    DependencyInvariant (applyDepOps {}
      [DepOp.register "k" c3Entry1, DepOp.remove "k", DepOp.register "k" c3Entry2]) ∧
    (registerDependencyPair {} "k" c3Entry1).dependencies.lookup "k" = some c3Entry1 :=
  ⟨dependency_maps_consistency.1 {} _ (fun _ _ => rfl) (by decide),
   dependency_maps_consistency.2 {} "k" c3Entry1⟩

theorem whereAll_eq_all (doc : JsVal) (l : List JsVal) :
    whereAll doc l = l.all (fun c => evaluateWhereClause doc c) := by
  induction l with
  | nil => simp [whereAll]
  | cons c cs ih => simp [whereAll, List.all_cons, ih]

theorem whereAny_eq_any (doc : JsVal) (l : List JsVal) :
    whereAny doc l = l.any (fun c => evaluateWhereClause doc c) := by
  induction l with
  | nil => simp [whereAny]
  | cons c cs ih => simp [whereAny, List.any_cons, ih]

/-- C10: when a where-clause object has an `and` key holding an array, the
matcher's result is exactly the conjunction of the array's conditions —
sibling `or` keys and sibling field conditions are ignored; when there is
no `and` key and an `or` key holds an array, the result is exactly the
disjunction — sibling field conditions are ignored. -/
theorem where_and_or_precedence (doc : JsVal) (fields : List (String × JsVal)) :
    (∀ l, fields.lookup "and" = some (JsVal.arr l) →
        evaluateWhereClause doc (JsVal.obj fields) =
          l.all (fun c => evaluateWhereClause doc c)) ∧
    (∀ l, fields.lookup "and" = none → fields.lookup "or" = some (JsVal.arr l) →
        evaluateWhereClause doc (JsVal.obj fields) =
          l.any (fun c => evaluateWhereClause doc c)) := by
  constructor
  · intro l hand
    have hget : jsGet (JsVal.obj fields) "and" = JsVal.arr l := by
      simp [jsGet, hand]
    rw [evaluateWhereClause, if_neg (by simp [jsTruthy, jsIsObjectType])]
    split
    · rename_i l' hl'
      rw [hget] at hl'
      cases hl'
      exact whereAll_eq_all doc _
    · rename_i hne
      exact absurd hget (hne l)
  · intro l hand hor
    have hgetAnd : jsGet (JsVal.obj fields) "and" = JsVal.undef := by
      simp [jsGet, hand]
    have hgetOr : jsGet (JsVal.obj fields) "or" = JsVal.arr l := by
      simp [jsGet, hor]
    rw [evaluateWhereClause, if_neg (by simp [jsTruthy, jsIsObjectType])]
    split
    · rename_i l' hl'
      rw [hgetAnd] at hl'
      cases hl'
    · split
      · rename_i l' hl'
        rw [hgetOr] at hl'
        cases hl'
        exact whereAny_eq_any doc _
      · rename_i hne
        exact absurd hgetOr (hne l)

/-- Witness for C10 at concrete inputs: a clause whose `and` array fails on
the document while its sibling `or` array and sibling field condition
would succeed (the result is the conjunction, `false`), and a clause with
an `or` array succeeding while its sibling field condition would fail (the
result is the disjunction, `true`). -/
theorem where_and_or_precedence_witness :
    evaluateWhereClause (JsVal.obj [("x", JsVal.num 1)])
      (JsVal.obj [("and", JsVal.arr [JsVal.obj [("x", JsVal.num 2)]]),
                  ("or", JsVal.arr [JsVal.obj [("x", JsVal.num 1)]]),
                  ("x", JsVal.num 1)]) =
      ([JsVal.obj [("x", JsVal.num 2)]]).all
        (fun c => evaluateWhereClause (JsVal.obj [("x", JsVal.num 1)]) c) ∧
    evaluateWhereClause (JsVal.obj [("x", JsVal.num 1)])
      (JsVal.obj [("or", JsVal.arr [JsVal.obj [("x", JsVal.num 1)]]),
                  ("x", JsVal.num 2)]) =
      ([JsVal.obj [("x", JsVal.num 1)]]).any
        (fun c => evaluateWhereClause (JsVal.obj [("x", JsVal.num 1)]) c) :=
  ⟨(where_and_or_precedence _ _).1 _ (by decide),
   (where_and_or_precedence _ _).2 _ (by decide) (by decide)⟩

/-! ## Schema dependency extractor (schema-dependency-extractor.ts) -/

/-- Relationship target of a schema field (`relationTo`): absent, a single
collection slug, or a list of slugs (polymorphic relationship). -/
inductive RelTo where
  | none
  | one (c : String)
  | many (cs : List String)
  deriving Repr, DecidableEq

/-- A field of a collection schema — the parts of the PayloadCMS `Field`
type read by the extractor: the optional `name`, the `type` string,
`relationTo` for relationship fields, `collection` for join fields, and
the nested `fields` and `tabs` (each tab carrying its own field list). -/
inductive FieldNode where
  | mk (name : Option String) (ftype : String) (relationTo : RelTo)
       (joinCollection : Option String) (fields : List FieldNode)
       (tabs : List (List FieldNode))
  deriving Repr

/-- A collection configuration (`CollectionConfig`): slug and fields. -/
structure CollectionConfig where
  slug : String
  fields : List FieldNode
  deriving Repr

/-- The sanitized payload configuration (`SanitizedConfig`): the list of
collection configurations. -/
structure SanitizedConfig where
  collections : List CollectionConfig
  deriving Repr

mutual

/-- Embedding of `findFieldInCollection` (schema-dependency-extractor.ts,
lines 144-168): per field, check the name, then recurse into nested
`fields`, then into each tab's `fields`, before moving to the next
field. -/
def findFieldInCollection (fieldName : String) : List FieldNode → Option FieldNode
  | [] => none
  | .mk nm ft rel jc nfields tabs :: rest =>
      if nm = some fieldName then some (.mk nm ft rel jc nfields tabs)
      else match findFieldInCollection fieldName nfields with
        | some x => some x
        | none =>
            match findInTabs fieldName tabs with
            | some x => some x
            | none => findFieldInCollection fieldName rest

/-- The tab loop of `findFieldInCollection`. -/
def findInTabs (fieldName : String) : List (List FieldNode) → Option FieldNode
  | [] => none
  | t :: ts =>
      match findFieldInCollection fieldName t with
      | some x => some x
      | none => findInTabs fieldName ts

end

/-- Embedding of `getRelationshipTargets` (schema-dependency-extractor.ts,
lines 173-188): a relationship field yields its `relationTo` collections;
a join field yields its `collection`; anything else yields nothing. -/
def getRelationshipTargets : FieldNode → List String
  | .mk _ ftype rel jc _ _ =>
      if ftype = "relationship" then
        match rel with
        | .one c => [c]
        | .many cs => cs
        | .none => []
      else if ftype = "join" then
        match jc with
        | some c => [c]
        | none => []
      else []

/-- `Set.add` on the insertion-ordered dependency set. -/
def addSet (deps : List String) (c : String) : List String :=
  if c ∈ deps then deps else deps ++ [c]

/-- The JavaScript test `key in v` for the object and array values on which
the embedded code applies it (it is guarded by
`typeof v === 'object' && v !== null`). -/
def jsHasKey : JsVal → String → Bool
  | .obj fields, k => (fields.lookup k).isSome
  | .arr xs, k =>
      k = "length" ||
        (match charsToNat? k.data with
          | some i => decide (i < xs.length)
          | none => false)
  | _, _ => false

theorem sizeOf_jsGet_of_hasKey {v : JsVal} {k : String}
    (hobj : jsIsObjectType v = true) (hnull : v ≠ JsVal.null)
    (hlen : k ≠ "length") (hkey : jsHasKey v k = true) :
    sizeOf (jsGet v k) < sizeOf v := by
  cases v with
  | obj fields =>
    simp only [jsHasKey, Option.isSome_iff_exists] at hkey
    obtain ⟨w, hw⟩ := hkey
    have hmem := lookup_mem hw
    have h1 := List.sizeOf_lt_of_mem hmem
    have h2 : sizeOf (k, w) = 1 + sizeOf k + sizeOf w := rfl
    simp only [jsGet, hw, Option.getD_some, JsVal.obj.sizeOf_spec]
    omega
  | arr xs =>
    simp only [jsHasKey] at hkey
    rw [Bool.or_eq_true] at hkey
    rcases hkey with hl | hidx
    · rw [decide_eq_true_iff] at hl
      exact absurd hl hlen
    · rw [jsGet, if_neg hlen]
      cases hc : charsToNat? k.data with
      | none => rw [hc] at hidx; simp at hidx
      | some i =>
        rw [hc] at hidx
        simp only [decide_eq_true_iff] at hidx
        cases hg : xs.get? i with
        | none =>
          rw [List.get?_eq_none] at hg
          omega
        | some w =>
          simp only [hg, Option.getD_some]
          have hmem := List.get?_mem hg
          have h1 := List.sizeOf_lt_of_mem hmem
          simp only [JsVal.arr.sizeOf_spec]
          omega
  | null => exact absurd rfl hnull
  | undef => simp [jsIsObjectType] at hobj
  | bool b => simp [jsIsObjectType] at hobj
  | num n => simp [jsIsObjectType] at hobj
  | str t => simp [jsIsObjectType] at hobj

mutual

/-- Embedding of `extractPopulateDependencies`
(schema-dependency-extractor.ts, lines 50-89): walk the populate object's
entries; for each field populated with `true` or an object, add the
field's relationship targets, and recurse into a nested `populate` for
each target collection found in the configuration.  A populate value that
is not an object carries no entries. -/
def extractPopulateDependencies (config : SanitizedConfig) (populate : JsVal)
    (collectionConfig : CollectionConfig) (deps : List String) : List String :=
  match populate with
  | .obj entries => popEntries config entries collectionConfig deps
  | _ => deps
termination_by (sizeOf populate, 0, 0)

/-- The `Object.entries(populate)` loop of `extractPopulateDependencies`. -/
def popEntries (config : SanitizedConfig) :
    List (String × JsVal) → CollectionConfig → List String → List String
  | [], _, deps => deps
  | (fieldName, cfgv) :: rest, cC, deps =>
      let deps' :=
        if cfgv == JsVal.bool true || (jsIsObjectType cfgv && cfgv != JsVal.null) then
          match findFieldInCollection fieldName cC.fields with
          | some field =>
              let targets := getRelationshipTargets field
              let d1 := targets.foldl addSet deps
              if _h : (jsIsObjectType cfgv && cfgv != JsVal.null &&
                  jsHasKey cfgv "populate") = true then
                popTargets config (jsGet cfgv "populate") targets d1
              else d1
          | none => deps
        else deps
      popEntries config rest cC deps'
termination_by l _ _ => (sizeOf l, 1, 0)
decreasing_by
  · simp only [Bool.and_eq_true, bne_iff_ne] at _h
    obtain ⟨⟨hobj, hne⟩, hkey⟩ := _h
    have hlt := sizeOf_jsGet_of_hasKey hobj hne (by decide) hkey
    have hsz : sizeOf ((fieldName, cfgv) :: rest) =
        1 + (1 + sizeOf fieldName + sizeOf cfgv) + sizeOf rest := rfl
    omega
  · simp
    omega

/-- The `targetCollections.forEach` recursion of nested populate. -/
def popTargets (config : SanitizedConfig) :
    JsVal → List String → List String → List String
  | _, [], deps => deps
  | popv, t :: ts, deps =>
      let deps' :=
        match config.collections.find? (fun col => col.slug == t) with
        | some targetConfig => extractPopulateDependencies config popv targetConfig deps
        | none => deps
      popTargets config popv ts deps'
termination_by popv ts _ => (sizeOf popv, 2, ts.length)

end

/-- The field looked up for a where-clause path
(schema-dependency-extractor.ts, lines 121-132): a dotted path resolves
its leading segment (`const [relationField] = fieldPath.split('.')`), a
plain path resolves itself. -/
def whereRelationField (fieldPath : String) : String :=
  if fieldPath.data.contains '.' then
    match splitPath fieldPath with
    | r :: _ => r
    | [] => fieldPath
  else fieldPath

/-- One iteration of the field-entry loop of `extractWhereDependencies`
(schema-dependency-extractor.ts, lines 118-138): `and`/`or` keys are
skipped; otherwise the resolved field's relationship targets are added. -/
def whereFieldStep (fieldPath : String) (cC : CollectionConfig) (deps : List String) :
    List String :=
  if fieldPath = "and" ∨ fieldPath = "or" then deps
  else
    match findFieldInCollection (whereRelationField fieldPath) cC.fields with
    | some field => (getRelationshipTargets field).foldl addSet deps
    | none => deps

/-- The field-entry loop of `extractWhereDependencies`. -/
def whereFields : List (String × JsVal) → CollectionConfig → List String → List String
  | [], _, deps => deps
  | (fieldPath, _) :: rest, cC, deps => whereFields rest cC (whereFieldStep fieldPath cC deps)

mutual

/-- Embedding of `extractWhereDependencies`
(schema-dependency-extractor.ts, lines 94-139): descend `and`/`or`
condition arrays, then walk the field entries. -/
def extractWhereDependencies (config : SanitizedConfig) (whereVal : JsVal)
    (collectionConfig : CollectionConfig) (deps : List String) : List String :=
  if !jsIsObjectType whereVal || whereVal == JsVal.null then deps
  else
    let deps1 :=
      match _ha : jsGet whereVal "and" with
      | .arr conditions => whereDepsList config conditions collectionConfig deps
      | _ => deps
    let deps2 :=
      match _ho : jsGet whereVal "or" with
      | .arr conditions => whereDepsList config conditions collectionConfig deps1
      | _ => deps1
    whereFields (jsEntries whereVal) collectionConfig deps2
termination_by (sizeOf whereVal, 0)
decreasing_by
  · have := sizeOf_jsGet_arr _ha
    simp only [JsVal.arr.sizeOf_spec] at this
    omega
  · have := sizeOf_jsGet_arr _ho
    simp only [JsVal.arr.sizeOf_spec] at this
    omega

/-- The `forEach` recursion over an `and`/`or` condition array. -/
def whereDepsList (config : SanitizedConfig) :
    List JsVal → CollectionConfig → List String → List String
  | [], _, deps => deps
  | c :: cs, cC, deps =>
      whereDepsList config cs cC (extractWhereDependencies config c cC deps)
termination_by l _ _ => (sizeOf l, 1)
decreasing_by
  · simp
    omega
  · simp
    omega

end

/-- Embedding of `extractQueryDependencies`
(schema-dependency-extractor.ts, lines 8-45): the query's own collection
is always added first; an unknown collection returns just that singleton;
otherwise the populate walk runs for `find`/`findByID` queries with a
truthy populate, and the where walk runs for `find`/`count` queries with
a truthy where clause. -/
def extractQueryDependencies (query : PayloadQuery) (payloadConfig : SanitizedConfig) :
    List String :=
  let dependencies := addSet [] query.collection
  match payloadConfig.collections.find? (fun col => col.slug == query.collection) with
  | none => dependencies
  | some collectionConfig =>
      let deps1 :=
        if (query.type = "find" ∨ query.type = "findByID") ∧ jsTruthy query.populate then
          extractPopulateDependencies payloadConfig query.populate collectionConfig dependencies
        else dependencies
      if (query.type = "find" ∨ query.type = "count") ∧ jsTruthy query.«where» then
        extractWhereDependencies payloadConfig query.«where» collectionConfig deps1
      else deps1

theorem mem_addSet_of_mem {deps : List String} {c : String} (c' : String)
    (h : c ∈ deps) : c ∈ addSet deps c' := by
  unfold addSet
  split
  · exact h
  · exact List.mem_append_left _ h

theorem mem_addSet_self (deps : List String) (c : String) : c ∈ addSet deps c := by
  unfold addSet
  split
  · assumption
  · exact List.mem_append_right _ (List.mem_singleton.mpr rfl)

theorem mem_foldl_addSet_of_mem {deps : List String} {c : String} (l : List String)
    (h : c ∈ deps) : c ∈ l.foldl addSet deps := by
  induction l generalizing deps with
  | nil => exact h
  | cons t ts ih => exact ih (mem_addSet_of_mem t h)

theorem mem_foldl_addSet_of_target {c : String} {l : List String} (deps : List String)
    (h : c ∈ l) : c ∈ l.foldl addSet deps := by
  induction l generalizing deps with
  | nil => simp at h
  | cons t ts ih =>
    rcases List.mem_cons.mp h with rfl | hmem
    · exact mem_foldl_addSet_of_mem ts (mem_addSet_self deps c)
    · exact ih _ hmem

mutual

theorem mem_extractPopulateDependencies_mono (config : SanitizedConfig) (p : JsVal)
    (cC : CollectionConfig) (deps : List String) (c : String) (h : c ∈ deps) :
    c ∈ extractPopulateDependencies config p cC deps := by
  match p with
  | .obj entries =>
    rw [extractPopulateDependencies]
    exact mem_popEntries_mono config entries cC deps c h
  | .undef => rw [extractPopulateDependencies] <;> first | exact h | (intro _ heq; cases heq)
  | .null => rw [extractPopulateDependencies] <;> first | exact h | (intro _ heq; cases heq)
  | .bool b => rw [extractPopulateDependencies] <;> first | exact h | (intro _ heq; cases heq)
  | .num n => rw [extractPopulateDependencies] <;> first | exact h | (intro _ heq; cases heq)
  | .str t => rw [extractPopulateDependencies] <;> first | exact h | (intro _ heq; cases heq)
  | .arr xs => rw [extractPopulateDependencies] <;> first | exact h | (intro _ heq; cases heq)
termination_by (sizeOf p, 0, 0)

theorem mem_popEntries_mono (config : SanitizedConfig) (l : List (String × JsVal))
    (cC : CollectionConfig) (deps : List String) (c : String) (h : c ∈ deps) :
    c ∈ popEntries config l cC deps := by
  match l with
  | [] => rw [popEntries]; exact h
  | (fieldName, cfgv) :: rest =>
    rw [popEntries]
    by_cases h1 : (cfgv == JsVal.bool true ||
        (jsIsObjectType cfgv && cfgv != JsVal.null)) = true
    · rw [if_pos h1]
      cases hf : findFieldInCollection fieldName cC.fields with
      | none =>
        simp only [hf]
        exact mem_popEntries_mono config rest cC _ c h
      | some field =>
        simp only [hf]
        by_cases hcond : (jsIsObjectType cfgv && cfgv != JsVal.null &&
            jsHasKey cfgv "populate") = true
        · rw [dif_pos hcond]
          exact mem_popEntries_mono config rest cC _ c
            (mem_popTargets_mono config _ _ _ c (mem_foldl_addSet_of_mem _ h))
        · rw [dif_neg hcond]
          exact mem_popEntries_mono config rest cC _ c (mem_foldl_addSet_of_mem _ h)
    · rw [if_neg h1]
      exact mem_popEntries_mono config rest cC _ c h
termination_by (sizeOf l, 1, 0)
decreasing_by
  all_goals first
    | (simp
       omega)
    | (simp only [Bool.and_eq_true, bne_iff_ne] at hcond
       obtain ⟨⟨hobj, hne⟩, hkey⟩ := hcond
       have hlt := sizeOf_jsGet_of_hasKey hobj hne (by decide) hkey
       have hsz : sizeOf ((fieldName, cfgv) :: rest) =
           1 + (1 + sizeOf fieldName + sizeOf cfgv) + sizeOf rest := rfl
       omega)

theorem mem_popTargets_mono (config : SanitizedConfig) (popv : JsVal) (ts : List String)
    (deps : List String) (c : String) (h : c ∈ deps) :
    c ∈ popTargets config popv ts deps := by
  match ts with
  | [] => rw [popTargets]; exact h
  | t :: rest =>
    rw [popTargets]
    cases hf : config.collections.find? (fun col => col.slug == t) with
    | none =>
      simp only [hf]
      exact mem_popTargets_mono config popv rest _ c h
    | some targetConfig =>
      simp only [hf]
      exact mem_popTargets_mono config popv rest _ c
        (mem_extractPopulateDependencies_mono config popv _ _ c h)
termination_by (sizeOf popv, 2, ts.length)

end

theorem mem_whereFieldStep_mono (fieldPath : String) (cC : CollectionConfig)
    (deps : List String) (c : String) (h : c ∈ deps) :
    c ∈ whereFieldStep fieldPath cC deps := by
  unfold whereFieldStep
  split
  · exact h
  · split
    · exact mem_foldl_addSet_of_mem _ h
    · exact h

theorem mem_whereFields_mono (l : List (String × JsVal)) (cC : CollectionConfig)
    (deps : List String) (c : String) (h : c ∈ deps) : c ∈ whereFields l cC deps := by
  induction l generalizing deps with
  | nil => exact h
  | cons e rest ih =>
    obtain ⟨fieldPath, v⟩ := e
    rw [whereFields]
    exact ih _ (mem_whereFieldStep_mono fieldPath cC deps c h)

mutual

theorem mem_extractWhereDependencies_mono (config : SanitizedConfig) (w : JsVal)
    (cC : CollectionConfig) (deps : List String) (c : String) (h : c ∈ deps) :
    c ∈ extractWhereDependencies config w cC deps := by
  rw [extractWhereDependencies]
  split
  · exact h
  · apply mem_whereFields_mono
    split
    · apply mem_whereDepsList_mono
      split
      · exact mem_whereDepsList_mono config _ cC _ c h
      · exact h
    · split
      · exact mem_whereDepsList_mono config _ cC _ c h
      · exact h
termination_by (sizeOf w, 0)
decreasing_by
  all_goals
    (rename_i harr
     have := sizeOf_jsGet_arr harr
     simp only [JsVal.arr.sizeOf_spec] at this
     omega)

theorem mem_whereDepsList_mono (config : SanitizedConfig) (l : List JsVal)
    (cC : CollectionConfig) (deps : List String) (c : String) (h : c ∈ deps) :
    c ∈ whereDepsList config l cC deps := by
  match l with
  | [] => rw [whereDepsList]; exact h
  | w :: rest =>
    rw [whereDepsList]
    exact mem_whereDepsList_mono config rest cC _ c
      (mem_extractWhereDependencies_mono config w cC _ c h)
termination_by (sizeOf l, 1)
decreasing_by
  all_goals (simp; omega)

end

/-- A populated field entry with a resolvable relationship contributes its
targets to the accumulated set. -/
theorem popEntries_includes_target (config : SanitizedConfig)
    {entries : List (String × JsVal)} (cC : CollectionConfig) (deps : List String)
    {fieldName : String} {cfgv : JsVal} {field : FieldNode} {C : String}
    (hmem : (fieldName, cfgv) ∈ entries)
    (hguard : (cfgv == JsVal.bool true ||
        (jsIsObjectType cfgv && cfgv != JsVal.null)) = true)
    (hfield : findFieldInCollection fieldName cC.fields = some field)
    (hC : C ∈ getRelationshipTargets field) :
    C ∈ popEntries config entries cC deps := by
  induction entries generalizing deps with
  | nil => simp at hmem
  | cons e rest ih =>
    rcases List.mem_cons.mp hmem with heq | hmem'
    · obtain ⟨f0, v0⟩ := e
      injection heq with h1 h2
      subst h1
      subst h2
      rw [popEntries, if_pos hguard]
      simp only [hfield]
      by_cases hcond : (jsIsObjectType cfgv && cfgv != JsVal.null &&
          jsHasKey cfgv "populate") = true
      · rw [dif_pos hcond]
        exact mem_popEntries_mono config rest cC _ C
          (mem_popTargets_mono config _ _ _ C (mem_foldl_addSet_of_target _ hC))
      · rw [dif_neg hcond]
        exact mem_popEntries_mono config rest cC _ C (mem_foldl_addSet_of_target _ hC)
    · obtain ⟨f0, v0⟩ := e
      rw [popEntries]
      exact ih _ hmem'

/-- The nested-populate recursion visits every resolvable target
collection. -/
theorem popTargets_reaches (config : SanitizedConfig) (popv : JsVal)
    {ts : List String} (deps : List String) {t : String} {tCfg : CollectionConfig}
    {C : String} (ht : t ∈ ts)
    (hcfg : config.collections.find? (fun col => col.slug == t) = some tCfg)
    (hin : ∀ d, C ∈ extractPopulateDependencies config popv tCfg d) :
    C ∈ popTargets config popv ts deps := by
  induction ts generalizing deps with
  | nil => simp at ht
  | cons t0 rest ih =>
    rcases List.mem_cons.mp ht with rfl | hmem
    · rw [popTargets]
      simp only [hcfg]
      exact mem_popTargets_mono config popv rest _ C (hin deps)
    · rw [popTargets]
      cases hf : config.collections.find? (fun col => col.slug == t0) with
      | none =>
        simp only [hf]
        exact ih _ hmem
      | some targetConfig =>
        simp only [hf]
        exact ih _ hmem

/-- A field entry populated with an object carrying a nested `populate`
pushes the nested walk into every resolvable target collection. -/
theorem popEntries_includes_nested (config : SanitizedConfig)
    {entries : List (String × JsVal)} (cC : CollectionConfig) (deps : List String)
    {fieldName : String} {l2 : List (String × JsVal)} {popv : JsVal}
    {field : FieldNode} {t : String} {tCfg : CollectionConfig} {C2 : String}
    (hmem : (fieldName, JsVal.obj l2) ∈ entries)
    (hpop : l2.lookup "populate" = some popv)
    (hfield : findFieldInCollection fieldName cC.fields = some field)
    (ht : t ∈ getRelationshipTargets field)
    (hcfg : config.collections.find? (fun col => col.slug == t) = some tCfg)
    (hin : ∀ d, C2 ∈ extractPopulateDependencies config popv tCfg d) :
    C2 ∈ popEntries config entries cC deps := by
  induction entries generalizing deps with
  | nil => simp at hmem
  | cons e rest ih =>
    rcases List.mem_cons.mp hmem with heq | hmem'
    · obtain ⟨f0, v0⟩ := e
      injection heq with h1 h2
      subst h1
      subst h2
      have hguard : ((JsVal.obj l2) == JsVal.bool true ||
          (jsIsObjectType (JsVal.obj l2) && (JsVal.obj l2) != JsVal.null)) = true := by
        simp [jsIsObjectType]
      rw [popEntries, if_pos hguard]
      simp only [hfield]
      have hcond : (jsIsObjectType (JsVal.obj l2) && (JsVal.obj l2) != JsVal.null &&
          jsHasKey (JsVal.obj l2) "populate") = true := by
        simp [jsIsObjectType, jsHasKey, hpop]
      rw [dif_pos hcond]
      have hget : jsGet (JsVal.obj l2) "populate" = popv := by
        simp [jsGet, hpop]
      rw [hget]
      exact mem_popEntries_mono config rest cC _ C2
        (popTargets_reaches config popv _ ht hcfg hin)
    · obtain ⟨f0, v0⟩ := e
      rw [popEntries]
      exact ih _ hmem'

/-- C7: `extractQueryDependencies` (i) always returns a set containing the
query's own collection; (ii) returns exactly the singleton of the query's
collection when the collection is unknown to the schema; (iii) contains
the schema relationship target of every populated, resolvable field of a
`find`/`findByID` query; and (iv) contains targets reached through a
nested `populate` of a populated relationship field. -/
theorem extractQueryDependencies_spec :
    (∀ (query : PayloadQuery) (config : SanitizedConfig),
        query.collection ∈ extractQueryDependencies query config) ∧
    (∀ (query : PayloadQuery) (config : SanitizedConfig),
        config.collections.find? (fun col => col.slug == query.collection) = none →
        extractQueryDependencies query config = [query.collection]) ∧
    (∀ (query : PayloadQuery) (config : SanitizedConfig) (cC : CollectionConfig)
        (entries : List (String × JsVal)) (fieldName : String) (cfgv : JsVal)
        (field : FieldNode) (C : String),
        config.collections.find? (fun col => col.slug == query.collection) = some cC →
        (query.type = "find" ∨ query.type = "findByID") →
        query.populate = JsVal.obj entries →
        (fieldName, cfgv) ∈ entries →
        (cfgv == JsVal.bool true || (jsIsObjectType cfgv && cfgv != JsVal.null)) = true →
        findFieldInCollection fieldName cC.fields = some field →
        C ∈ getRelationshipTargets field →
        C ∈ extractQueryDependencies query config) ∧
    (∀ (query : PayloadQuery) (config : SanitizedConfig) (cC : CollectionConfig)
        (entries : List (String × JsVal)) (fieldName : String)
        (l2 : List (String × JsVal)) (popv : JsVal) (field : FieldNode)
        (t : String) (tCfg : CollectionConfig) (entries2 : List (String × JsVal))
        (f2 : String) (cfgv2 : JsVal) (field2 : FieldNode) (C2 : String),
        config.collections.find? (fun col => col.slug == query.collection) = some cC →
        (query.type = "find" ∨ query.type = "findByID") →
        query.populate = JsVal.obj entries →
        (fieldName, JsVal.obj l2) ∈ entries →
        l2.lookup "populate" = some popv →
        findFieldInCollection fieldName cC.fields = some field →
        t ∈ getRelationshipTargets field →
        config.collections.find? (fun col => col.slug == t) = some tCfg →
        popv = JsVal.obj entries2 →
        (f2, cfgv2) ∈ entries2 →
        (cfgv2 == JsVal.bool true || (jsIsObjectType cfgv2 && cfgv2 != JsVal.null)) = true →
        findFieldInCollection f2 tCfg.fields = some field2 →
        C2 ∈ getRelationshipTargets field2 →
        C2 ∈ extractQueryDependencies query config) := by
  refine ⟨?_, ?_, ?_, ?_⟩
  · intro query config
    have hself : query.collection ∈ addSet [] query.collection := mem_addSet_self _ _
    unfold extractQueryDependencies
    cases hf : config.collections.find? (fun col => col.slug == query.collection) with
    | none => exact hself
    | some cC =>
      simp only
      split
      · apply mem_extractWhereDependencies_mono
        split
        · exact mem_extractPopulateDependencies_mono _ _ _ _ _ hself
        · exact hself
      · split
        · exact mem_extractPopulateDependencies_mono _ _ _ _ _ hself
        · exact hself
  · intro query config hnone
    unfold extractQueryDependencies
    rw [hnone]
    simp [addSet]
  · intro query config cC entries fieldName cfgv field C hfind htype hpop hmem hguard hfield hC
    unfold extractQueryDependencies
    rw [hfind]
    simp only
    have htruthy : jsTruthy query.populate = true := by rw [hpop]; rfl
    have hdeps1 : C ∈ (if (query.type = "find" ∨ query.type = "findByID") ∧
        jsTruthy query.populate = true then
          extractPopulateDependencies config query.populate cC (addSet [] query.collection)
        else addSet [] query.collection) := by
      rw [if_pos ⟨htype, htruthy⟩, hpop, extractPopulateDependencies]
      exact popEntries_includes_target config cC _ hmem hguard hfield hC
    split
    · exact mem_extractWhereDependencies_mono _ _ _ _ _ hdeps1
    · exact hdeps1
  · intro query config cC entries fieldName l2 popv field t tCfg entries2 f2 cfgv2 field2 C2
      hfind htype hpop hmem hlookup hfield ht htcfg hpv hmem2 hguard2 hfield2 hC2
    unfold extractQueryDependencies
    rw [hfind]
    simp only
    have htruthy : jsTruthy query.populate = true := by rw [hpop]; rfl
    have hin : ∀ d, C2 ∈ extractPopulateDependencies config popv tCfg d := by
      intro d
      rw [hpv, extractPopulateDependencies]
      exact popEntries_includes_target config tCfg _ hmem2 hguard2 hfield2 hC2
    have hdeps1 : C2 ∈ (if (query.type = "find" ∨ query.type = "findByID") ∧
        jsTruthy query.populate = true then
          extractPopulateDependencies config query.populate cC (addSet [] query.collection)
        else addSet [] query.collection) := by
      rw [if_pos ⟨htype, htruthy⟩, hpop, extractPopulateDependencies]
      exact popEntries_includes_nested config cC _ hmem hlookup hfield ht htcfg hin
    split
    · exact mem_extractWhereDependencies_mono _ _ _ _ _ hdeps1
    · exact hdeps1

/-- The `assignee` relationship field of the example schema. -/
def c7AssigneeField : FieldNode := .mk (some "assignee") "relationship" (.one "users") none [] []

/-- The `project` relationship field of the example schema. -/
def c7ProjectField : FieldNode := .mk (some "project") "relationship" (.one "projects") none [] []

/-- The `owner` relationship field of the example schema. -/
def c7OwnerField : FieldNode := .mk (some "owner") "relationship" (.one "users") none [] []

/-- The `tasks` collection of the example schema (mirroring the repository's
schema-dependency-extractor unit-test configuration). -/
def c7TasksConfig : CollectionConfig :=
  { slug := "tasks",
    fields := [.mk (some "name") "text" .none none [] [],
               c7AssigneeField, c7ProjectField] }

/-- The `projects` collection of the example schema. -/
def c7ProjectsConfig : CollectionConfig :=
  { slug := "projects",
    fields := [.mk (some "name") "text" .none none [] [], c7OwnerField] }

/-- The example schema configuration. -/
def c7Config : SanitizedConfig :=
  { collections := [c7TasksConfig,
                    { slug := "users",
                      fields := [.mk (some "name") "text" .none none [] []] },
                    c7ProjectsConfig] }

/-- Witness for C7 at concrete inputs over the example schema: the result
contains the query's own collection; an unknown collection yields exactly
its singleton; populating `assignee` contributes `users`; and a nested
populate `project -> owner` contributes `users` through `projects`. -/
theorem extractQueryDependencies_spec_witness :
    "tasks" ∈ extractQueryDependencies { type := "find", collection := "tasks" } c7Config ∧
    extractQueryDependencies
      { type := "find", collection := "unknown-collection",
        populate := JsVal.obj [("someField", JsVal.bool true)] } c7Config =
      ["unknown-collection"] ∧
    "users" ∈ extractQueryDependencies
      { type := "find", collection := "tasks",
        populate := JsVal.obj [("assignee", JsVal.bool true)] } c7Config ∧
    "users" ∈ extractQueryDependencies
      { type := "find", collection := "tasks",
        populate := JsVal.obj [("project", JsVal.obj
          [("populate", JsVal.obj [("owner", JsVal.bool true)])])] } c7Config :=
  ⟨extractQueryDependencies_spec.1 _ _,
   extractQueryDependencies_spec.2.1 _ _ rfl,
   extractQueryDependencies_spec.2.2.1 _ c7Config c7TasksConfig
     [("assignee", JsVal.bool true)] "assignee" (JsVal.bool true) c7AssigneeField "users"
     rfl (by decide) rfl (by decide) (by decide)
     (by simp [findFieldInCollection, findInTabs, c7TasksConfig, c7AssigneeField]) (by decide),
   extractQueryDependencies_spec.2.2.2 _ c7Config c7TasksConfig
     [("project", JsVal.obj [("populate", JsVal.obj [("owner", JsVal.bool true)])])]
     "project" [("populate", JsVal.obj [("owner", JsVal.bool true)])]
     (JsVal.obj [("owner", JsVal.bool true)]) c7ProjectField "projects" c7ProjectsConfig
     [("owner", JsVal.bool true)] "owner" (JsVal.bool true) c7OwnerField "users"
     rfl (by decide) rfl (by decide) rfl
     (by simp [findFieldInCollection, findInTabs, c7TasksConfig, c7AssigneeField, c7ProjectField])
     (by decide) rfl rfl (by decide) (by decide)
     (by simp [findFieldInCollection, findInTabs, c7ProjectsConfig, c7OwnerField]) (by decide)⟩

/-! ## Fan-out orchestration (afterOperation.ts, smart-publisher.ts) -/

/-- Outcome of a settled promise: fulfilled with a value or rejected with
a reason. -/
inductive PromiseOutcome (ε α : Type) where
  | fulfilled (value : α)
  | rejected (reason : ε)
  deriving Repr, DecidableEq

/-- `Promise.all` semantics (fail-fast): the first rejection rejects the
combined promise.  Included for contrast with `Promise.allSettled`, which
the embedded code uses instead. -/
def promiseAll {ε α : Type} : List (PromiseOutcome ε α) → Except ε (List α)
  | [] => .ok []
  | .fulfilled v :: rest => (promiseAll rest).map (fun vs => v :: vs)
  | .rejected e :: _ => .error e

/-- `Promise.allSettled` semantics: the combined promise always fulfills,
collecting every input promise's settled outcome. -/
def promiseAllSettled {ε α : Type} (ps : List (PromiseOutcome ε α)) :
    Except ε (List (PromiseOutcome ε α)) :=
  .ok ps

/-- Embedding of `publishChanges` (smart-publisher.ts, lines 10-60): the
three publisher promises (incremental, count, cross-collection) are
created together, awaited with `Promise.allSettled`, and rejections are
only logged; the surrounding `try`/`catch` logs any remaining failure.
The publisher runs themselves are external effects, so their settled
outcomes are the parameters.  The value is the pair of the function's own
promise outcome and the settled results it observed. -/
def publishChanges {ε : Type} (incremental count crossCollection : PromiseOutcome ε Unit) :
    Except ε Unit × List (PromiseOutcome ε Unit) :=
  match promiseAllSettled [incremental, count, crossCollection] with
  | .ok results => (.ok (), results)
  | .error _ => (.ok (), [])

/-- Embedding of `afterOperation` (hooks/afterOperation.ts, lines 15-84):
read operations return the result untouched; recognized write operations
map the operation name, start `publishChanges` without awaiting it and
with a `.catch` logger attached, and return the mutation result.  The
value is the pair of (what the hook returns to the mutation caller, the
settled fan-out outcomes). -/
def afterOperation {ε : Type} (operation : String) (result : JsVal)
    (incremental count crossCollection : PromiseOutcome ε Unit) :
    JsVal × List (PromiseOutcome ε Unit) :=
  if operation ∉ ["create", "update", "updateByID", "delete", "deleteByID"] then
    (result, [])
  else
    match (if operation = "create" then some Operation.create
           else if operation = "update" ∨ operation = "updateByID" then some Operation.update
           else if operation = "delete" ∨ operation = "deleteByID" then some Operation.delete
           else none) with
    | none => (result, [])
    | some _operationType =>
        let fanout := publishChanges incremental count crossCollection
        (result, fanout.2)

/-- C8: the write path is independent of fan-out outcomes — the hook
returns the mutation result for every combination of publisher outcomes
(rejections included), `publishChanges` itself always fulfills, and the
publishers are combined with all-settle semantics: every path's settled
outcome is collected no matter how the others settled (so one failing
path does not prevent the others from running), as witnessed by
`promiseAllSettled` never rejecting. -/
theorem fanout_never_fails_mutation :
    ∀ {ε : Type} (operation : String) (result : JsVal)
      (o1 o2 o3 : PromiseOutcome ε Unit),
      (afterOperation operation result o1 o2 o3).1 = result ∧
      (publishChanges o1 o2 o3).1 = Except.ok () ∧
      (publishChanges o1 o2 o3).2 = [o1, o2, o3] ∧
      (afterOperation "update" result o1 o2 o3).2 = [o1, o2, o3] ∧
      promiseAllSettled [o1, o2, o3] = Except.ok [o1, o2, o3] := by
  intro ε operation result o1 o2 o3
  refine ⟨?_, rfl, rfl, rfl, rfl⟩
  unfold afterOperation
  split
  · rfl
  · split <;> rfl

/-! ## Query fingerprint (query-hash.ts)

`createQueryHash` packs the normalized parameters with msgpackr and
base64url-encodes the bytes.  The msgpack encoding implemented by the
external msgpackr `Packr` is modelled here byte for byte on the value
fragment the queries inhabit: `nil`, `undefined` (0xC1, msgpackr's
default), booleans, integers (the msgpack integer formats up to 32 bits —
the queries carry small integral numbers; larger JavaScript numbers would
be doubles, which are out of scope, so the 32-bit signed form is reused
with wrap-around for totality), UTF-8 strings, arrays and string-keyed
maps in insertion order. -/

/-- UTF-8 encoding of one Unicode scalar value. -/
def utf8EncodeChar (c : Char) : List Nat :=
  let n := c.toNat
  if n < 128 then [n]
  else if n < 2048 then [192 + n / 64, 128 + n % 64]
  else if n < 65536 then [224 + n / 4096, 128 + n / 64 % 64, 128 + n % 64]
  else [240 + n / 262144, 128 + n / 4096 % 64, 128 + n / 64 % 64, 128 + n % 64]

/-- UTF-8 encoding of a string. -/
def utf8Encode (s : String) : List Nat :=
  s.data.foldr (fun c acc => utf8EncodeChar c ++ acc) []

/-- The msgpack integer formats (canonical smallest form, as produced by
msgpackr): positive/negative fixint, uint8/16/32, int8/16/32. -/
def packInt (n : Int) : List Nat :=
  if 0 ≤ n ∧ n ≤ 127 then [n.toNat]
  else if -32 ≤ n ∧ n < 0 then [(256 + n).toNat]
  else if 128 ≤ n ∧ n ≤ 255 then [204, n.toNat]
  else if 256 ≤ n ∧ n ≤ 65535 then [205, n.toNat / 256, n.toNat % 256]
  else if 65536 ≤ n ∧ n ≤ 4294967295 then
    [206, n.toNat / 16777216 % 256, n.toNat / 65536 % 256, n.toNat / 256 % 256, n.toNat % 256]
  else if -128 ≤ n ∧ n < -32 then [208, (256 + n).toNat]
  else if -32768 ≤ n ∧ n < -128 then [209, (65536 + n).toNat / 256, (65536 + n).toNat % 256]
  else
    let m := ((n % 4294967296 + 4294967296) % 4294967296).toNat
    [210, m / 16777216 % 256, m / 65536 % 256, m / 256 % 256, m % 256]

/-- The msgpack string formats (fixstr, str8, str16, str32). -/
def packStr (s : String) : List Nat :=
  let bytes := utf8Encode s
  let len := bytes.length
  if len < 32 then (160 + len) :: bytes
  else if len < 256 then 217 :: len :: bytes
  else if len < 65536 then 218 :: len / 256 :: len % 256 :: bytes
  else 219 :: len / 16777216 % 256 :: len / 65536 % 256 :: len / 256 % 256 :: len % 256 :: bytes

/-- Header of a msgpack array of the given length. -/
def packArrHeader (len : Nat) : List Nat :=
  if len < 16 then [144 + len]
  else if len < 65536 then [220, len / 256, len % 256]
  else [221, len / 16777216 % 256, len / 65536 % 256, len / 256 % 256, len % 256]

/-- Header of a msgpack map of the given length. -/
def packMapHeader (len : Nat) : List Nat :=
  if len < 16 then [128 + len]
  else if len < 65536 then [222, len / 256, len % 256]
  else [223, len / 16777216 % 256, len / 65536 % 256, len / 256 % 256, len % 256]

mutual

/-- msgpack encoding of a value (see the section comment). -/
def packVal : JsVal → List Nat
  | .null => [192]
  | .undef => [193]
  | .bool false => [194]
  | .bool true => [195]
  | .num n => packInt n
  | .str s => packStr s
  | .arr xs => packArrHeader xs.length ++ packList xs
  | .obj fields => packMapHeader fields.length ++ packFields fields

/-- msgpack encoding of the elements of an array. -/
def packList : List JsVal → List Nat
  | [] => []
  | v :: rest => packVal v ++ packList rest

/-- msgpack encoding of the entries of a string-keyed map, in insertion
order. -/
def packFields : List (String × JsVal) → List Nat
  | [] => []
  | (k, v) :: rest => packStr k ++ packVal v ++ packFields rest

end

/-- The standard base64 alphabet. -/
def base64Table : List Char :=
  "ABCDEFGHIJKLMNOPQRSTUVWXYZabcdefghijklmnopqrstuvwxyz0123456789+/".data

/-- Character of a six-bit group. -/
def b64Char (n : Nat) : Char := (base64Table.get? n).getD 'A'

/-- Standard base64 encoding (with padding) of a byte list, as produced by
`Buffer.toString('base64')`. -/
def base64Chars : List Nat → List Char
  | b1 :: b2 :: b3 :: rest =>
      b64Char (b1 / 4) :: b64Char (b1 % 4 * 16 + b2 / 16) ::
        b64Char (b2 % 16 * 4 + b3 / 64) :: b64Char (b3 % 64) :: base64Chars rest
  | [b1, b2] => [b64Char (b1 / 4), b64Char (b1 % 4 * 16 + b2 / 16), b64Char (b2 % 16 * 4), '=']
  | [b1] => [b64Char (b1 / 4), b64Char (b1 % 4 * 16), '=', '=']
  | [] => []

/-- The base64url conversion applied by `createQueryHash`:
`.replace(/\+/g, '-').replace(/\//g, '_').replace(/=/g, '')`. -/
def b64UrlRepl (c : Char) : Char :=
  if c = '+' then '-' else if c = '/' then '_' else c

def base64UrlOf (bytes : List Nat) : List Char :=
  ((base64Chars bytes).map b64UrlRepl).filter (fun c => c ≠ '=')

/-- The `stableParams` object built by `createQueryHash` (query-hash.ts,
lines 12-37): `where` and `populate` only when they are objects with at
least one key, `sort`, `limit` and `id` whenever not `undefined`/`null`,
in this fixed insertion order. -/
def stableParams (query : PayloadQuery) : List (String × JsVal) :=
  (if query.«where» ≠ JsVal.undef ∧ query.«where» ≠ JsVal.null ∧
      jsIsObjectType query.«where» = true ∧ jsKeysLength query.«where» > 0 then
    [("where", query.«where»)]
  else []) ++
  (if query.sort ≠ JsVal.undef ∧ query.sort ≠ JsVal.null then [("sort", query.sort)] else []) ++
  (if query.limit ≠ JsVal.undef ∧ query.limit ≠ JsVal.null then [("limit", query.limit)]
   else []) ++
  (if query.populate ≠ JsVal.undef ∧ query.populate ≠ JsVal.null ∧
      jsIsObjectType query.populate = true ∧ jsKeysLength query.populate > 0 then
    [("populate", query.populate)]
  else []) ++
  (if query.id ≠ JsVal.undef ∧ query.id ≠ JsVal.null then [("id", query.id)] else [])

/-- Embedding of `createQueryHash` (query-hash.ts, lines 11-58): pack the
stable params with msgpackr, base64url-encode, and join
`type.collection.encodedParams`.  Note that `page`, `depth`, `locale` and
`fallbackLocale` are never added to `stableParams`. -/
def createQueryHash (query : PayloadQuery) : String :=
  query.type ++ "." ++ query.collection ++ "." ++
    String.mk (base64UrlOf (packVal (JsVal.obj (stableParams query))))

/-- First C5 query: a find on `t` whose `where` object lists key `a`
before key `b`. -/
def c5Query1 : PayloadQuery :=
  { type := "find", collection := "t",
    «where» := JsVal.obj [("a", JsVal.obj [("equals", JsVal.num 1)]),
                          ("b", JsVal.obj [("equals", JsVal.num 2)])] }

/-- Second C5 query: identical to `c5Query1` except that the `where`
object lists key `b` before key `a`. -/
def c5Query2 : PayloadQuery :=
  { type := "find", collection := "t",
    «where» := JsVal.obj [("b", JsVal.obj [("equals", JsVal.num 2)]),
                          ("a", JsVal.obj [("equals", JsVal.num 1)])] }

/-- C5 counterexample: two queries that differ only in the key order of
their `where` object (semantically equal filters) produce different
fingerprints, because msgpackr serializes object entries in insertion
order and `createQueryHash` does not sort nested keys. -/
theorem key_order_changes_fingerprint :
    c5Query1.type = c5Query2.type ∧
    c5Query1.collection = c5Query2.collection ∧
    c5Query1.«where» = JsVal.obj [("a", JsVal.obj [("equals", JsVal.num 1)]),
                                  ("b", JsVal.obj [("equals", JsVal.num 2)])] ∧
    c5Query2.«where» = JsVal.obj [("b", JsVal.obj [("equals", JsVal.num 2)]),
                                  ("a", JsVal.obj [("equals", JsVal.num 1)])] ∧
    createQueryHash c5Query1 ≠ createQueryHash c5Query2 := by
  refine ⟨rfl, rfl, rfl, rfl, by decide⟩

/-- C5 amended theorem: the fingerprint is determined by
`(type, collection, stableParams)` and is invariant under the presence of
empty or null optional fields — an empty or null `where`, a null `sort`,
`limit` or `id`, and an empty or null `populate` all fingerprint
identically to the absent field.  (Key order inside nested objects such
as `where` is significant — see the counterexample.) -/
theorem fingerprint_normalizes_empty_fields :
    ∀ (q q2 : PayloadQuery),
      (createQueryHash { q with «where» := JsVal.obj [] } =
        createQueryHash { q with «where» := JsVal.undef }) ∧
      (createQueryHash { q with «where» := JsVal.null } =
        createQueryHash { q with «where» := JsVal.undef }) ∧
      (createQueryHash { q with sort := JsVal.null } =
        createQueryHash { q with sort := JsVal.undef }) ∧
      (createQueryHash { q with limit := JsVal.null } =
        createQueryHash { q with limit := JsVal.undef }) ∧
      (createQueryHash { q with populate := JsVal.obj [] } =
        createQueryHash { q with populate := JsVal.undef }) ∧
      (createQueryHash { q with populate := JsVal.null } =
        createQueryHash { q with populate := JsVal.undef }) ∧
      (createQueryHash { q with id := JsVal.null } =
        createQueryHash { q with id := JsVal.undef }) ∧
      (q.type = q2.type → q.collection = q2.collection →
        stableParams q = stableParams q2 →
        createQueryHash q = createQueryHash q2) := by
  intro q q2
  refine ⟨?_, ?_, ?_, ?_, ?_, ?_, ?_, ?_⟩
  · unfold createQueryHash stableParams
    simp [jsKeysLength]
  · unfold createQueryHash stableParams
    simp
  · unfold createQueryHash stableParams
    simp
  · unfold createQueryHash stableParams
    simp
  · unfold createQueryHash stableParams
    simp [jsKeysLength]
  · unfold createQueryHash stableParams
    simp
  · unfold createQueryHash stableParams
    simp
  · intro ht hc hs
    unfold createQueryHash
    rw [ht, hc, hs]

/-- Witness for the C5 amended theorem at concrete queries: an empty
`where` object fingerprints like an absent one, and two queries with
equal type, collection and stable params fingerprint identically. -/
theorem fingerprint_normalizes_empty_fields_witness :
    createQueryHash { type := "find", collection := "tasks", «where» := JsVal.obj [] } =
      createQueryHash { type := "find", collection := "tasks", «where» := JsVal.undef } ∧
    createQueryHash { type := "find", collection := "tasks", page := JsVal.num 1 } =
      createQueryHash { type := "find", collection := "tasks", page := JsVal.num 2 } :=
  ⟨(fingerprint_normalizes_empty_fields { type := "find", collection := "tasks" }
      { type := "find", collection := "tasks" }).1,
   (fingerprint_normalizes_empty_fields
      { type := "find", collection := "tasks", page := JsVal.num 1 }
      { type := "find", collection := "tasks", page := JsVal.num 2 }).2.2.2.2.2.2.2
      rfl rfl (by decide)⟩

/-- First C6 query: page 1. -/
def c6Query1 : PayloadQuery :=
  { type := "find", collection := "tasks", limit := JsVal.num 10, page := JsVal.num 1 }

/-- Second C6 query: page 2, otherwise identical. -/
def c6Query2 : PayloadQuery :=
  { type := "find", collection := "tasks", limit := JsVal.num 10, page := JsVal.num 2 }

/-- C6 counterexample: two queries differing in the meaningful `page`
parameter (listed by the claim) receive the same fingerprint, because
`createQueryHash` never adds `page` (nor `depth`/`locale`/
`fallbackLocale`) to `stableParams`. -/
theorem page_not_fingerprinted :
    c6Query1.page ≠ c6Query2.page ∧
    createQueryHash c6Query1 = createQueryHash c6Query2 := by
  refine ⟨by decide, by decide⟩

/-! ## Client view store (view-store.ts and the `PayloadViewWrapper` class
of client/payload-sync.ts) -/

/-- State of one `PayloadViewWrapper` as visible to the store: the wrapper
identity (reference equality of instances), the current `#ttl`, the
subscriber count (`#subscribers.size`; every subscriber registers a fresh
callback closure), and the pending cleanup timer (`#cleanupTimer`),
recorded as the pair (scheduling time, deadline); `#scheduleCleanupIfNeeded`
computes the deadline as the scheduling time plus the `#ttl` captured at
scheduling. -/
structure ViewState where
  viewId : Nat
  ttl : Nat
  subscribers : Nat
  cleanupTimer : Option (Nat × Nat)
  deriving Repr, DecidableEq

/-- State of the `PayloadViewStore`: `#views` keyed by `createQueryHash`,
plus the number of wrappers created so far.  The `PayloadViewWrapper`
constructor materializes immediately (issuing the server subscription), so
`nextId` counts materialized server subscriptions. -/
structure ViewStoreState where
  views : List (String × ViewState) := []
  nextId : Nat := 0
  deriving Repr, DecidableEq

/-- Embedding of `PayloadViewStore.getView` with `enabled = true`
(view-store.ts, lines 20-49): an existing view for the query's fingerprint
receives `updateTTL(ttl)` and is returned unchanged; otherwise a new
wrapper is created (materializing immediately), stored under the
fingerprint, and returned.  The second component is the returned
wrapper's identity. -/
def stepGetView (st : ViewStoreState) (query : PayloadQuery) (ttl : Nat) :
    ViewStoreState × Nat :=
  let hash := createQueryHash query
  match st.views.lookup hash with
  | some v =>
      ({ st with views := setAssoc st.views hash { v with ttl := ttl } }, v.viewId)
  | none =>
      ({ views := setAssoc st.views hash
           { viewId := st.nextId, ttl := ttl, subscribers := 0, cleanupTimer := none },
         nextId := st.nextId + 1 },
       st.nextId)

/-- Embedding of `PayloadViewWrapper.subscribe` (payload-sync.ts, lines
1084-1096): add the callback to `#subscribers` and `#cancelCleanup()`
(clear any pending timer). -/
def stepSubscribe (st : ViewStoreState) (hash : String) : ViewStoreState :=
  match st.views.lookup hash with
  | some v =>
      let v1 : ViewState :=
        { v with subscribers := v.subscribers + 1, cleanupTimer := none }
      { st with views := setAssoc st.views hash v1 }
  | none => st

/-- Embedding of the unsubscribe closure returned by `subscribe`
(payload-sync.ts, lines 1092-1095) together with
`#scheduleCleanupIfNeeded` (lines 1197-1206): remove the callback; when no
subscriber remains and no timer is pending, schedule the cleanup timeout
for `#ttl` milliseconds from now. -/
def stepUnsubscribe (st : ViewStoreState) (now : Nat) (hash : String) : ViewStoreState :=
  match st.views.lookup hash with
  | some v =>
      let v1 := { v with subscribers := v.subscribers - 1 }
      let v2 :=
        if v1.subscribers = 0 ∧ v1.cleanupTimer = none then
          { v1 with cleanupTimer := some (now, now + v1.ttl) }
        else v1
      { st with views := setAssoc st.views hash v2 }
  | none => st

/-- Embedding of the cleanup timeout firing (payload-sync.ts, lines
1199-1204, with `destroy` at lines 1168-1181 and the store's
`#onViewDematerialized` at view-store.ts lines 153-171): at or after the
deadline, if no subscriber was added during the TTL, the wrapper is
destroyed and the view removed from the store (closing the server
subscription); otherwise nothing happens. -/
def stepTimerFire (st : ViewStoreState) (now : Nat) (hash : String) : ViewStoreState :=
  match st.views.lookup hash with
  | some v =>
      match v.cleanupTimer with
      | some (_, deadline) =>
          if deadline ≤ now then
            if v.subscribers = 0 then { st with views := delAssoc st.views hash }
            else st
          else st
      | none => st
  | none => st

/-- Events of the view-store lifecycle. -/
inductive ViewEvent where
  | getView (query : PayloadQuery) (ttl : Nat)
  | subscribe (hash : String)
  | unsubscribe (hash : String)
  | timerFire (hash : String)
  deriving Repr, DecidableEq

/-- One timestamped step. -/
def viewStep (st : ViewStoreState) (e : Nat × ViewEvent) : ViewStoreState :=
  match e.2 with
  | .getView q ttl => (stepGetView st q ttl).1
  | .subscribe h => stepSubscribe st h
  | .unsubscribe h => stepUnsubscribe st e.1 h
  | .timerFire h => stepTimerFire st e.1 h

/-- Run of a timestamped event trace from a state. -/
def runViews (st : ViewStoreState) (tr : List (Nat × ViewEvent)) : ViewStoreState :=
  tr.foldl viewStep st

/-- Trace times are strictly increasing (each event carries the clock value
at which it happens). -/
def Chrono (tr : List (Nat × ViewEvent)) : Prop :=
  List.Pairwise (fun a b => a.1 < b.1) tr

/-- Timer invariant of the view store: along any chronological trace, a view
holding a pending cleanup timer scheduled at `t0` has zero subscribers, a
deadline at or after `t0`, and every subscribe event for that view happened
at or before `t0` — so no subscriber attached after the timer was scheduled
(an attach would have cancelled it). -/
theorem viewTimerInv :
    ∀ (pre : List (Nat × ViewEvent)), Chrono pre →
      ∀ hash v t0 dl, (runViews {} pre).views.lookup hash = some v →
        v.cleanupTimer = some (t0, dl) →
        v.subscribers = 0 ∧ t0 ≤ dl ∧
          ∀ p ∈ pre, p.2 = ViewEvent.subscribe hash → p.1 ≤ t0 := by
  intro pre
  induction pre using List.reverseRecOn with
  | nil =>
      intro _ hash v t0 dl hlk _
      simp [runViews, List.lookup] at hlk
  | append_singleton tr e ih =>
      intro hch hash v t0 dl hlk htm
      obtain ⟨u, ev⟩ := e
      have hsp := List.pairwise_append.mp hch
      have hctr : Chrono tr := hsp.1
      have hlt : ∀ p ∈ tr, p.1 < u := by
        intro p hp
        exact hsp.2.2 p hp (u, ev) (by simp)
      have hrun : runViews {} (tr ++ [(u, ev)]) = viewStep (runViews {} tr) (u, ev) := by
        simp [runViews, List.foldl_append]
      rw [hrun] at hlk
      set st := runViews {} tr with hst
      cases ev with
      | getView q ttl =>
          simp only [viewStep, stepGetView] at hlk
          cases hl : List.lookup (createQueryHash q) st.views with
          | some v0 =>
              simp only [hl] at hlk
              by_cases hh : hash = createQueryHash q
              · subst hh
                rw [lookup_setAssoc_self] at hlk
                have hv : v = { v0 with ttl := ttl } := (Option.some.inj hlk).symm
                subst hv
                have htm0 : v0.cleanupTimer = some (t0, dl) := htm
                obtain ⟨hs, hle, hsub⟩ := ih hctr (createQueryHash q) v0 t0 dl hl htm0
                refine ⟨hs, hle, ?_⟩
                intro p hp hpe
                rcases List.mem_append.mp hp with h | h
                · exact hsub p h hpe
                · simp at h
                  subst h
                  simp at hpe
              · rw [lookup_setAssoc_ne _ _ hh] at hlk
                obtain ⟨hs, hle, hsub⟩ := ih hctr hash v t0 dl hlk htm
                refine ⟨hs, hle, ?_⟩
                intro p hp hpe
                rcases List.mem_append.mp hp with h | h
                · exact hsub p h hpe
                · simp at h
                  subst h
                  simp at hpe
          | none =>
              simp only [hl] at hlk
              by_cases hh : hash = createQueryHash q
              · subst hh
                rw [lookup_setAssoc_self] at hlk
                have hv : v = { viewId := st.nextId, ttl := ttl, subscribers := 0, cleanupTimer := none } := (Option.some.inj hlk).symm
                rw [hv] at htm
                simp at htm
              · rw [lookup_setAssoc_ne _ _ hh] at hlk
                obtain ⟨hs, hle, hsub⟩ := ih hctr hash v t0 dl hlk htm
                refine ⟨hs, hle, ?_⟩
                intro p hp hpe
                rcases List.mem_append.mp hp with h | h
                · exact hsub p h hpe
                · simp at h
                  subst h
                  simp at hpe
      | subscribe hq =>
          simp only [viewStep, stepSubscribe] at hlk
          cases hl : List.lookup hq st.views with
          | some v0 =>
              simp only [hl] at hlk
              by_cases hh : hash = hq
              · subst hh
                rw [lookup_setAssoc_self] at hlk
                have hv : v = { v0 with subscribers := v0.subscribers + 1, cleanupTimer := none } := (Option.some.inj hlk).symm
                rw [hv] at htm
                simp at htm
              · rw [lookup_setAssoc_ne _ _ hh] at hlk
                obtain ⟨hs, hle, hsub⟩ := ih hctr hash v t0 dl hlk htm
                refine ⟨hs, hle, ?_⟩
                intro p hp hpe
                rcases List.mem_append.mp hp with h | h
                · exact hsub p h hpe
                · simp at h
                  subst h
                  simp at hpe
                  exact absurd hpe.symm hh
          | none =>
              simp only [hl] at hlk
              obtain ⟨hs, hle, hsub⟩ := ih hctr hash v t0 dl hlk htm
              refine ⟨hs, hle, ?_⟩
              intro p hp hpe
              rcases List.mem_append.mp hp with h | h
              · exact hsub p h hpe
              · simp at h
                subst h
                simp at hpe
                rw [hpe] at hl
                rw [hl] at hlk
                cases hlk
      | unsubscribe hq =>
          simp only [viewStep, stepUnsubscribe] at hlk
          cases hl : List.lookup hq st.views with
          | some v0 =>
              simp only [hl] at hlk
              by_cases hh : hash = hq
              · subst hh
                rw [lookup_setAssoc_self] at hlk
                replace hlk := (Option.some.inj hlk).symm
                by_cases hcond : ({ v0 with subscribers := v0.subscribers - 1} :
                    ViewState).subscribers = 0 ∧
                    ({ v0 with subscribers := v0.subscribers - 1} :
                      ViewState).cleanupTimer = none
                · rw [if_pos hcond] at hlk
                  rw [hlk] at htm ⊢
                  have ht0 : t0 = u := (Prod.mk.injEq _ _ _ _ |>.mp
                    (Option.some.inj htm)).1.symm
                  have hdl : dl = u + v0.ttl := (Prod.mk.injEq _ _ _ _ |>.mp
                    (Option.some.inj htm)).2.symm
                  refine ⟨hcond.1, ?_, ?_⟩
                  · rw [ht0, hdl]
                    exact Nat.le_add_right u v0.ttl
                  · intro p hp hpe
                    rcases List.mem_append.mp hp with h | h
                    · rw [ht0]
                      exact Nat.le_of_lt (hlt p h)
                    · simp at h
                      subst h
                      simp at hpe
                · rw [if_neg hcond] at hlk
                  rw [hlk] at htm ⊢
                  have htm0 : v0.cleanupTimer = some (t0, dl) := htm
                  obtain ⟨hs, hle, hsub⟩ := ih hctr hash v0 t0 dl hl htm0
                  refine ⟨?_, hle, ?_⟩
                  · show v0.subscribers - 1 = 0
                    omega
                  · intro p hp hpe
                    rcases List.mem_append.mp hp with h | h
                    · exact hsub p h hpe
                    · simp at h
                      subst h
                      simp at hpe
              · rw [lookup_setAssoc_ne _ _ hh] at hlk
                obtain ⟨hs, hle, hsub⟩ := ih hctr hash v t0 dl hlk htm
                refine ⟨hs, hle, ?_⟩
                intro p hp hpe
                rcases List.mem_append.mp hp with h | h
                · exact hsub p h hpe
                · simp at h
                  subst h
                  simp at hpe
          | none =>
              simp only [hl] at hlk
              obtain ⟨hs, hle, hsub⟩ := ih hctr hash v t0 dl hlk htm
              refine ⟨hs, hle, ?_⟩
              intro p hp hpe
              rcases List.mem_append.mp hp with h | h
              · exact hsub p h hpe
              · simp at h
                subst h
                simp at hpe
      | timerFire hq =>
          simp only [viewStep, stepTimerFire] at hlk
          cases hl : List.lookup hq st.views with
          | some v0 =>
              simp only [hl] at hlk
              cases htm0 : v0.cleanupTimer with
              | some pr =>
                  obtain ⟨s, deadline⟩ := pr
                  simp only [htm0] at hlk
                  by_cases h1 : deadline ≤ u
                  · by_cases h2 : v0.subscribers = 0
                    · rw [if_pos h1, if_pos h2] at hlk
                      by_cases hh : hash = hq
                      · subst hh
                        rw [lookup_delAssoc_self] at hlk
                        cases hlk
                      · rw [lookup_delAssoc_ne _ hh] at hlk
                        obtain ⟨hs, hle, hsub⟩ := ih hctr hash v t0 dl hlk htm
                        refine ⟨hs, hle, ?_⟩
                        intro p hp hpe
                        rcases List.mem_append.mp hp with h | h
                        · exact hsub p h hpe
                        · simp at h
                          subst h
                          simp at hpe
                    · rw [if_pos h1, if_neg h2] at hlk
                      obtain ⟨hs, hle, hsub⟩ := ih hctr hash v t0 dl hlk htm
                      refine ⟨hs, hle, ?_⟩
                      intro p hp hpe
                      rcases List.mem_append.mp hp with h | h
                      · exact hsub p h hpe
                      · simp at h
                        subst h
                        simp at hpe
                  · rw [if_neg h1] at hlk
                    obtain ⟨hs, hle, hsub⟩ := ih hctr hash v t0 dl hlk htm
                    refine ⟨hs, hle, ?_⟩
                    intro p hp hpe
                    rcases List.mem_append.mp hp with h | h
                    · exact hsub p h hpe
                    · simp at h
                      subst h
                      simp at hpe
              | none =>
                  simp only [htm0] at hlk
                  obtain ⟨hs, hle, hsub⟩ := ih hctr hash v t0 dl hlk htm
                  refine ⟨hs, hle, ?_⟩
                  intro p hp hpe
                  rcases List.mem_append.mp hp with h | h
                  · exact hsub p h hpe
                  · simp at h
                    subst h
                    simp at hpe
          | none =>
              simp only [hl] at hlk
              obtain ⟨hs, hle, hsub⟩ := ih hctr hash v t0 dl hlk htm
              refine ⟨hs, hle, ?_⟩
              intro p hp hpe
              rcases List.mem_append.mp hp with h | h
              · exact hsub p h hpe
              · simp at h
                subst h
                simp at hpe

instance (tr : List (Nat × ViewEvent)) : Decidable (Chrono tr) :=
  inferInstanceAs (Decidable (List.Pairwise _ tr))

/-- C9: repeated `getView` calls with fingerprint-equal queries return the
same wrapper instance (same viewId), refresh its TTL, and materialize no new
server subscription (`nextId` unchanged); `subscribe` cancels any pending
teardown, after which a cleanup-timer firing at any time is a no-op; and
along any chronological trace, a timer firing dematerializes a view only
when the stored deadline has passed, the view has zero subscribers, and
every subscribe event of the trace happened at or before the scheduling
time `t0` — so the TTL window elapsed with zero subscribers throughout. -/
theorem view_lifecycle :
    (∀ (st : ViewStoreState) (q1 q2 : PayloadQuery) (ttl1 ttl2 : Nat),
        createQueryHash q1 = createQueryHash q2 →
          (stepGetView (stepGetView st q1 ttl1).1 q2 ttl2).2
              = (stepGetView st q1 ttl1).2 ∧
            (stepGetView (stepGetView st q1 ttl1).1 q2 ttl2).1.nextId
              = (stepGetView st q1 ttl1).1.nextId ∧
            ((stepGetView (stepGetView st q1 ttl1).1 q2 ttl2).1.views.lookup
                (createQueryHash q1)).map ViewState.ttl = some ttl2) ∧
    (∀ (st : ViewStoreState) (hash : String) (v0 : ViewState),
        st.views.lookup hash = some v0 →
          ((stepSubscribe st hash).views.lookup hash).map ViewState.cleanupTimer
              = some none ∧
            ∀ now, stepTimerFire (stepSubscribe st hash) now hash
              = stepSubscribe st hash) ∧
    (∀ (pre : List (Nat × ViewEvent)) (t : Nat) (hash : String) (v : ViewState)
        (t0 dl : Nat),
        Chrono pre →
          (runViews {} pre).views.lookup hash = some v →
            v.cleanupTimer = some (t0, dl) →
              dl ≤ t →
                (runViews {} (pre ++ [(t, ViewEvent.timerFire hash)])).views.lookup
                    hash = none ∧
                  v.subscribers = 0 ∧ t0 ≤ dl ∧
                  ∀ p ∈ pre, p.2 = ViewEvent.subscribe hash → p.1 ≤ t0) := by
  refine ⟨?_, ?_, ?_⟩
  · intro st q1 q2 ttl1 ttl2 hq
    simp only [stepGetView, ← hq]
    cases hl : List.lookup (createQueryHash q1) st.views with
    | some v0 =>
        simp only [hl, lookup_setAssoc_self]
        simp [lookup_setAssoc_self]
    | none =>
        simp only [hl, lookup_setAssoc_self]
        simp [lookup_setAssoc_self]
  · intro st hash v0 h0
    constructor
    · simp [stepSubscribe, h0, lookup_setAssoc_self]
    · intro now
      simp [stepTimerFire, stepSubscribe, h0, lookup_setAssoc_self]
  · intro pre t hash v t0 dl hch hlk htm hdl
    obtain ⟨hs, hle, hsub⟩ := viewTimerInv pre hch hash v t0 dl hlk htm
    refine ⟨?_, hs, hle, hsub⟩
    have hrun : runViews {} (pre ++ [(t, ViewEvent.timerFire hash)])
        = viewStep (runViews {} pre) (t, ViewEvent.timerFire hash) := by
      simp [runViews, List.foldl_append]
    rw [hrun]
    simp only [viewStep, stepTimerFire, hlk, htm]
    rw [if_pos hdl, if_pos hs]
    simp [lookup_delAssoc_self]

/-- Concrete inputs for the view-lifecycle witness: a find query on `tasks`,
the trace getView at time 0 (TTL 5), subscribe at 1, unsubscribe at 2
(scheduling the cleanup for time 7), and the view state it reaches. -/
def c9Query : PayloadQuery := { type := "find", collection := "tasks" }

def c9Hash : String := createQueryHash c9Query

def c9Trace : List (Nat × ViewEvent) :=
  [(0, ViewEvent.getView c9Query 5), (1, ViewEvent.subscribe c9Hash),
    (2, ViewEvent.unsubscribe c9Hash)]

def c9View : ViewState :=
  { viewId := 0, ttl := 5, subscribers := 0, cleanupTimer := some (2, 7) }

/-- Witness for `view_lifecycle`: two getView calls on the same query share
the wrapper and refresh the TTL; subscribing after getView clears the timer
and makes a later firing a no-op; and after the concrete trace
getView-subscribe-unsubscribe, the firing at the deadline 7 removes the
view, which had zero subscribers and no subscribe event after the
scheduling time 2. -/
theorem view_lifecycle_witness :
    ((stepGetView (stepGetView {} c9Query 3).1 c9Query 5).2
        = (stepGetView ({} : ViewStoreState) c9Query 3).2 ∧
      (stepGetView (stepGetView {} c9Query 3).1 c9Query 5).1.nextId
        = (stepGetView ({} : ViewStoreState) c9Query 3).1.nextId ∧
      ((stepGetView (stepGetView {} c9Query 3).1 c9Query 5).1.views.lookup
          (createQueryHash c9Query)).map ViewState.ttl = some 5) ∧
    ((((stepSubscribe (stepGetView {} c9Query 3).1 c9Hash).views.lookup c9Hash).map
          ViewState.cleanupTimer = some none) ∧
      ∀ now, stepTimerFire (stepSubscribe (stepGetView {} c9Query 3).1 c9Hash) now
          c9Hash = stepSubscribe (stepGetView {} c9Query 3).1 c9Hash) ∧
    ((runViews {} (c9Trace ++ [(7, ViewEvent.timerFire c9Hash)])).views.lookup c9Hash
        = none ∧
      c9View.subscribers = 0 ∧ 2 ≤ 7 ∧
      ∀ p ∈ c9Trace, p.2 = ViewEvent.subscribe c9Hash → p.1 ≤ 2) :=
  ⟨view_lifecycle.1 {} c9Query c9Query 3 5 rfl,
    view_lifecycle.2.1 (stepGetView {} c9Query 3).1 c9Hash
      { viewId := 0, ttl := 3, subscribers := 0, cleanupTimer := none } (by decide),
    view_lifecycle.2.2 c9Trace 7 c9Hash c9View 2 7 (by decide) (by decide) rfl
      (by decide)⟩

/-! ## Injectivity of the fingerprint encoding

To settle the separation claim we invert the encoding: a base64url decoder,
a UTF-8 decoder and a msgpack parser, each proved to round-trip on every
value the encoder can produce (within the integer and length bounds of the
32-bit msgpack forms, captured by `wfVal`). -/

/-- The base64url alphabet (the standard alphabet after the `+`/`/`
replacements). -/
def urlTable : List Char :=
  "ABCDEFGHIJKLMNOPQRSTUVWXYZabcdefghijklmnopqrstuvwxyz0123456789-_".data

/-- Character of a six-bit group after the base64url replacement. -/
def urlChar (n : Nat) : Char := (urlTable.get? n).getD 'A'

theorem b64UrlRepl_b64Char : ∀ n, n < 64 → b64UrlRepl (b64Char n) = urlChar n := by decide

theorem urlChar_ne_eqsign : ∀ n, n < 64 → urlChar n ≠ '=' := by decide

theorem urlChar_ne_dot : ∀ n, n < 64 → urlChar n ≠ '.' := by decide

/-- Index of a character in the base64url alphabet. -/
def urlIdxFrom : List Char → Char → Nat → Option Nat
  | [], _, _ => none
  | t :: rest, c, i => if t = c then some i else urlIdxFrom rest c (i + 1)

def urlIdx (c : Char) : Option Nat := urlIdxFrom urlTable c 0

theorem urlIdx_urlChar : ∀ n, n < 64 → urlIdx (urlChar n) = some n := by decide

theorem filtmap_cons_keep (c : Char) (l : List Char) (h : b64UrlRepl c ≠ '=') :
    ((c :: l).map b64UrlRepl).filter (fun x => x ≠ '=') =
      b64UrlRepl c :: (l.map b64UrlRepl).filter (fun x => x ≠ '=') := by
  simp [List.filter, h]

theorem filtmap_cons_pad (l : List Char) :
    (('=' :: l).map b64UrlRepl).filter (fun x => x ≠ '=') =
      (l.map b64UrlRepl).filter (fun x => x ≠ '=') := by
  simp [List.filter, b64UrlRepl]

theorem base64UrlOf_nil : base64UrlOf [] = [] := rfl

theorem base64UrlOf_one (b1 : Nat) (h : b1 < 256) :
    base64UrlOf [b1] = [urlChar (b1 / 4), urlChar (b1 % 4 * 16)] := by
  have h1 : b1 / 4 < 64 := by omega
  have h2 : b1 % 4 * 16 < 64 := by omega
  rw [base64UrlOf, base64Chars,
    filtmap_cons_keep _ _ (by rw [b64UrlRepl_b64Char _ h1]; exact urlChar_ne_eqsign _ h1),
    filtmap_cons_keep _ _ (by rw [b64UrlRepl_b64Char _ h2]; exact urlChar_ne_eqsign _ h2),
    filtmap_cons_pad, filtmap_cons_pad,
    b64UrlRepl_b64Char _ h1, b64UrlRepl_b64Char _ h2]
  rfl

theorem base64UrlOf_two (b1 b2 : Nat) (h : b1 < 256) (h' : b2 < 256) :
    base64UrlOf [b1, b2] =
      [urlChar (b1 / 4), urlChar (b1 % 4 * 16 + b2 / 16), urlChar (b2 % 16 * 4)] := by
  have h1 : b1 / 4 < 64 := by omega
  have h2 : b1 % 4 * 16 + b2 / 16 < 64 := by omega
  have h3 : b2 % 16 * 4 < 64 := by omega
  rw [base64UrlOf, base64Chars,
    filtmap_cons_keep _ _ (by rw [b64UrlRepl_b64Char _ h1]; exact urlChar_ne_eqsign _ h1),
    filtmap_cons_keep _ _ (by rw [b64UrlRepl_b64Char _ h2]; exact urlChar_ne_eqsign _ h2),
    filtmap_cons_keep _ _ (by rw [b64UrlRepl_b64Char _ h3]; exact urlChar_ne_eqsign _ h3),
    filtmap_cons_pad,
    b64UrlRepl_b64Char _ h1, b64UrlRepl_b64Char _ h2, b64UrlRepl_b64Char _ h3]
  rfl

theorem base64UrlOf_cons3 (b1 b2 b3 : Nat) (rest : List Nat)
    (h : b1 < 256) (h' : b2 < 256) (h'' : b3 < 256) :
    base64UrlOf (b1 :: b2 :: b3 :: rest) =
      urlChar (b1 / 4) :: urlChar (b1 % 4 * 16 + b2 / 16) ::
        urlChar (b2 % 16 * 4 + b3 / 64) :: urlChar (b3 % 64) :: base64UrlOf rest := by
  have h1 : b1 / 4 < 64 := by omega
  have h2 : b1 % 4 * 16 + b2 / 16 < 64 := by omega
  have h3 : b2 % 16 * 4 + b3 / 64 < 64 := by omega
  have h4 : b3 % 64 < 64 := by omega
  rw [base64UrlOf, base64Chars,
    filtmap_cons_keep _ _ (by rw [b64UrlRepl_b64Char _ h1]; exact urlChar_ne_eqsign _ h1),
    filtmap_cons_keep _ _ (by rw [b64UrlRepl_b64Char _ h2]; exact urlChar_ne_eqsign _ h2),
    filtmap_cons_keep _ _ (by rw [b64UrlRepl_b64Char _ h3]; exact urlChar_ne_eqsign _ h3),
    filtmap_cons_keep _ _ (by rw [b64UrlRepl_b64Char _ h4]; exact urlChar_ne_eqsign _ h4),
    b64UrlRepl_b64Char _ h1, b64UrlRepl_b64Char _ h2, b64UrlRepl_b64Char _ h3,
    b64UrlRepl_b64Char _ h4, base64UrlOf]

/-- Decoder for unpadded base64url output. -/
def decodeB64Url : List Char → Option (List Nat)
  | [] => some []
  | [c1, c2] =>
      match urlIdx c1, urlIdx c2 with
      | some i1, some i2 => if i2 % 16 = 0 then some [i1 * 4 + i2 / 16] else none
      | _, _ => none
  | [c1, c2, c3] =>
      match urlIdx c1, urlIdx c2, urlIdx c3 with
      | some i1, some i2, some i3 =>
          if i3 % 4 = 0 then some [i1 * 4 + i2 / 16, i2 % 16 * 16 + i3 / 4] else none
      | _, _, _ => none
  | c1 :: c2 :: c3 :: c4 :: rest =>
      match urlIdx c1, urlIdx c2, urlIdx c3, urlIdx c4, decodeB64Url rest with
      | some i1, some i2, some i3, some i4, some bs =>
          some ((i1 * 4 + i2 / 16) :: (i2 % 16 * 16 + i3 / 4) :: (i3 % 4 * 64 + i4) :: bs)
      | _, _, _, _, _ => none
  | [_] => none

/-- The base64url encoding round-trips: the decoder recovers the bytes. -/
theorem decodeB64Url_of : ∀ bs : List Nat, (∀ b ∈ bs, b < 256) →
    decodeB64Url (base64UrlOf bs) = some bs
  | [], _ => rfl
  | [b1], h => by
      have hb1 : b1 < 256 := h b1 (by simp)
      rw [base64UrlOf_one b1 hb1, decodeB64Url,
        urlIdx_urlChar _ (by omega), urlIdx_urlChar _ (by omega)]
      have hg : b1 % 4 * 16 % 16 = 0 := by omega
      have e1 : b1 / 4 * 4 + b1 % 4 * 16 / 16 = b1 := by omega
      show (if b1 % 4 * 16 % 16 = 0 then some [b1 / 4 * 4 + b1 % 4 * 16 / 16] else none)
          = some [b1]
      rw [if_pos hg, e1]
  | [b1, b2], h => by
      have hb1 : b1 < 256 := h b1 (by simp)
      have hb2 : b2 < 256 := h b2 (by simp)
      rw [base64UrlOf_two b1 b2 hb1 hb2, decodeB64Url,
        urlIdx_urlChar _ (by omega), urlIdx_urlChar _ (by omega),
        urlIdx_urlChar _ (by omega)]
      have hg : b2 % 16 * 4 % 4 = 0 := by omega
      have e1 : b1 / 4 * 4 + (b1 % 4 * 16 + b2 / 16) / 16 = b1 := by omega
      have e2 : (b1 % 4 * 16 + b2 / 16) % 16 * 16 + b2 % 16 * 4 / 4 = b2 := by omega
      show (if b2 % 16 * 4 % 4 = 0 then
          some [b1 / 4 * 4 + (b1 % 4 * 16 + b2 / 16) / 16,
            (b1 % 4 * 16 + b2 / 16) % 16 * 16 + b2 % 16 * 4 / 4]
        else none) = some [b1, b2]
      rw [if_pos hg, e1, e2]
  | b1 :: b2 :: b3 :: rest, h => by
      have hb1 : b1 < 256 := h b1 (by simp)
      have hb2 : b2 < 256 := h b2 (by simp)
      have hb3 : b3 < 256 := h b3 (by simp)
      have hrest : ∀ b ∈ rest, b < 256 := fun b hb => h b (by simp [hb])
      rw [base64UrlOf_cons3 b1 b2 b3 rest hb1 hb2 hb3, decodeB64Url,
        urlIdx_urlChar _ (by omega), urlIdx_urlChar _ (by omega),
        urlIdx_urlChar _ (by omega), urlIdx_urlChar _ (by omega),
        decodeB64Url_of rest hrest]
      have e1 : b1 / 4 * 4 + (b1 % 4 * 16 + b2 / 16) / 16 = b1 := by omega
      have e2 : (b1 % 4 * 16 + b2 / 16) % 16 * 16 + (b2 % 16 * 4 + b3 / 64) / 4 = b2 := by
        omega
      have e3 : (b2 % 16 * 4 + b3 / 64) % 4 * 64 + b3 % 64 = b3 := by omega
      show some ((b1 / 4 * 4 + (b1 % 4 * 16 + b2 / 16) / 16) ::
          ((b1 % 4 * 16 + b2 / 16) % 16 * 16 + (b2 % 16 * 4 + b3 / 64) / 4) ::
          ((b2 % 16 * 4 + b3 / 64) % 4 * 64 + b3 % 64) :: rest)
        = some (b1 :: b2 :: b3 :: rest)
      rw [e1, e2, e3]

/-- The base64url output never contains a dot. -/
theorem base64UrlOf_ne_dot : ∀ bs : List Nat, (∀ b ∈ bs, b < 256) →
    ('.' : Char) ∉ base64UrlOf bs
  | [], _ => by simp [base64UrlOf_nil]
  | [b1], h => by
      have hb1 : b1 < 256 := h b1 (by simp)
      rw [base64UrlOf_one b1 hb1]
      simp only [List.mem_cons, List.not_mem_nil, or_false]
      push_neg
      exact ⟨(urlChar_ne_dot _ (by omega)).symm, (urlChar_ne_dot _ (by omega)).symm⟩
  | [b1, b2], h => by
      have hb1 : b1 < 256 := h b1 (by simp)
      have hb2 : b2 < 256 := h b2 (by simp)
      rw [base64UrlOf_two b1 b2 hb1 hb2]
      simp only [List.mem_cons, List.not_mem_nil, or_false]
      push_neg
      exact ⟨(urlChar_ne_dot _ (by omega)).symm, (urlChar_ne_dot _ (by omega)).symm,
        (urlChar_ne_dot _ (by omega)).symm⟩
  | b1 :: b2 :: b3 :: rest, h => by
      have hb1 : b1 < 256 := h b1 (by simp)
      have hb2 : b2 < 256 := h b2 (by simp)
      have hb3 : b3 < 256 := h b3 (by simp)
      have hrest : ∀ b ∈ rest, b < 256 := fun b hb => h b (by simp [hb])
      rw [base64UrlOf_cons3 b1 b2 b3 rest hb1 hb2 hb3]
      simp only [List.mem_cons]
      push_neg
      exact ⟨(urlChar_ne_dot _ (by omega)).symm, (urlChar_ne_dot _ (by omega)).symm,
        (urlChar_ne_dot _ (by omega)).symm, (urlChar_ne_dot _ (by omega)).symm,
        base64UrlOf_ne_dot rest hrest⟩

/-- Byte of a list at an index, with an out-of-range marker. -/
def byteAt (bs : List Nat) (i : Nat) : Nat := (bs.get? i).getD 256

/-- Decode one UTF-8 character from the front of a byte list. -/
def utf8DecodeOne (bs : List Nat) : Option (Char × List Nat) :=
  let b0 := byteAt bs 0
  if b0 < 128 then some (Char.ofNat b0, bs.drop 1)
  else if b0 < 224 then
    let b2 := byteAt bs 1
    if 192 ≤ b0 ∧ 128 ≤ b2 ∧ b2 < 192 then
      some (Char.ofNat ((b0 - 192) * 64 + (b2 - 128)), bs.drop 2)
    else none
  else if b0 < 240 then
    let b2 := byteAt bs 1
    let b3 := byteAt bs 2
    if 128 ≤ b2 ∧ b2 < 192 ∧ 128 ≤ b3 ∧ b3 < 192 then
      some (Char.ofNat ((b0 - 224) * 4096 + (b2 - 128) * 64 + (b3 - 128)), bs.drop 3)
    else none
  else if b0 < 248 then
    let b2 := byteAt bs 1
    let b3 := byteAt bs 2
    let b4 := byteAt bs 3
    if 128 ≤ b2 ∧ b2 < 192 ∧ 128 ≤ b3 ∧ b3 < 192 ∧ 128 ≤ b4 ∧ b4 < 192 then
      some (Char.ofNat ((b0 - 240) * 262144 + (b2 - 128) * 4096 + (b3 - 128) * 64 +
        (b4 - 128)), bs.drop 4)
    else none
  else none

/-- Fuelled UTF-8 decoding loop (one unit of fuel per character). -/
def utf8DecodeLoop : Nat → List Nat → Option (List Char)
  | 0, bs => if bs = [] then some [] else none
  | fuel + 1, bs =>
      if bs = [] then some []
      else
        match utf8DecodeOne bs with
        | some (c, rest) =>
            match utf8DecodeLoop fuel rest with
            | some cs => some (c :: cs)
            | none => none
        | none => none

/-- UTF-8 decoder (total; rejects malformed input). -/
def utf8Decode (bs : List Nat) : Option (List Char) := utf8DecodeLoop bs.length bs

/-- Every Unicode scalar value is below 0x110000. -/
theorem char_toNat_lt (c : Char) : c.toNat < 1114112 := by
  have h := c.valid
  rcases h with h | h
  · exact Nat.lt_trans h (by norm_num)
  · exact h.2

theorem utf8EncodeChar_ne_nil (c : Char) : utf8EncodeChar c ≠ [] := by
  rw [utf8EncodeChar]
  split_ifs <;> simp

theorem utf8EncodeChar_length_pos (c : Char) : 1 ≤ (utf8EncodeChar c).length := by
  rw [utf8EncodeChar]
  split_ifs <;> simp

/-- One-character UTF-8 round-trip. -/
theorem utf8DecodeOne_encodeChar (c : Char) (tail : List Nat) :
    utf8DecodeOne (utf8EncodeChar c ++ tail) = some (c, tail) := by
  have hlt := char_toNat_lt c
  rw [utf8EncodeChar]
  by_cases h1 : c.toNat < 128
  · rw [if_pos h1]
    show utf8DecodeOne (c.toNat :: tail) = some (c, tail)
    rw [utf8DecodeOne]
    simp only [byteAt, List.get?, Option.getD_some]
    rw [if_pos h1, Char.ofNat_toNat]
    rfl
  · rw [if_neg h1]
    by_cases h2 : c.toNat < 2048
    · rw [if_pos h2]
      show utf8DecodeOne ((192 + c.toNat / 64) :: (128 + c.toNat % 64) :: tail)
          = some (c, tail)
      rw [utf8DecodeOne]
      simp only [byteAt, List.get?, Option.getD_some]
      rw [if_neg (by omega), if_pos (by omega), if_pos (by omega)]
      have e : (192 + c.toNat / 64 - 192) * 64 + (128 + c.toNat % 64 - 128) = c.toNat := by
        omega
      rw [e, Char.ofNat_toNat]
      rfl
    · rw [if_neg h2]
      by_cases h3 : c.toNat < 65536
      · rw [if_pos h3]
        show utf8DecodeOne ((224 + c.toNat / 4096) :: (128 + c.toNat / 64 % 64) ::
            (128 + c.toNat % 64) :: tail) = some (c, tail)
        rw [utf8DecodeOne]
        simp only [byteAt, List.get?, Option.getD_some]
        rw [if_neg (by omega), if_neg (by omega), if_pos (by omega), if_pos (by omega)]
        have e : (224 + c.toNat / 4096 - 224) * 4096 +
            (128 + c.toNat / 64 % 64 - 128) * 64 + (128 + c.toNat % 64 - 128) = c.toNat := by
          omega
        rw [e, Char.ofNat_toNat]
        rfl
      · rw [if_neg h3]
        show utf8DecodeOne ((240 + c.toNat / 262144) :: (128 + c.toNat / 4096 % 64) ::
            (128 + c.toNat / 64 % 64) :: (128 + c.toNat % 64) :: tail) = some (c, tail)
        rw [utf8DecodeOne]
        simp only [byteAt, List.get?, Option.getD_some]
        rw [if_neg (by omega), if_neg (by omega), if_neg (by omega), if_pos (by omega),
          if_pos (by omega)]
        have e : (240 + c.toNat / 262144 - 240) * 262144 +
            (128 + c.toNat / 4096 % 64 - 128) * 4096 +
            (128 + c.toNat / 64 % 64 - 128) * 64 + (128 + c.toNat % 64 - 128) = c.toNat := by
          omega
        rw [e, Char.ofNat_toNat]
        rfl

/-- The fuelled loop round-trips on encoded character lists. -/
theorem utf8DecodeLoop_encodeList :
    ∀ (cs : List Char) (fuel : Nat), cs.length ≤ fuel →
      utf8DecodeLoop fuel (cs.foldr (fun c acc => utf8EncodeChar c ++ acc) []) = some cs := by
  intro cs
  induction cs with
  | nil =>
      intro fuel _
      cases fuel with
      | zero => rfl
      | succ f => simp [utf8DecodeLoop]
  | cons c cs ih =>
      intro fuel hf
      cases fuel with
      | zero => simp at hf
      | succ f =>
          rw [List.foldr_cons, utf8DecodeLoop,
            if_neg (fun hnil => utf8EncodeChar_ne_nil c (List.append_eq_nil.mp hnil).1),
            utf8DecodeOne_encodeChar]
          show (match utf8DecodeLoop f
              (List.foldr (fun c acc => utf8EncodeChar c ++ acc) [] cs) with
            | some cs2 => some (c :: cs2)
            | none => none) = some (c :: cs)
          rw [ih f (by simpa using hf)]
/-- Character count never exceeds byte count. -/
theorem encodeList_length_ge (cs : List Char) :
    cs.length ≤ (List.foldr (fun c acc => utf8EncodeChar c ++ acc) [] cs).length := by
  induction cs with
  | nil => simp
  | cons c cs ih =>
      simp only [List.foldr_cons, List.length_append, List.length_cons]
      have := utf8EncodeChar_length_pos c
      omega

/-- The UTF-8 encoding of a string round-trips. -/
theorem utf8Decode_encode (s : String) : utf8Decode (utf8Encode s) = some s.data := by
  rw [utf8Decode, utf8Encode]
  exact utf8DecodeLoop_encodeList s.data _ (encodeList_length_ge s.data)

/-! Bounds under which the 32-bit msgpack forms used by the embedding are
canonical: integers fit in int32/uint32, byte lengths and element counts
fit in 32 bits. -/

mutual

/-- Well-formedness bounds of one value. -/
def wfVal : JsVal → Bool
  | .null => true
  | .undef => true
  | .bool _ => true
  | .num n => decide (-2147483648 ≤ n ∧ n ≤ 4294967295)
  | .str s => decide ((utf8Encode s).length < 4294967296)
  | .arr xs => decide (xs.length < 4294967296) && wfList xs
  | .obj fs => decide (fs.length < 4294967296) && wfFields fs

def wfList : List JsVal → Bool
  | [] => true
  | v :: rest => wfVal v && wfList rest

def wfFields : List (String × JsVal) → Bool
  | [] => true
  | (k, v) :: rest =>
      decide ((utf8Encode k).length < 4294967296) && wfVal v && wfFields rest

end

theorem utf8EncodeChar_bytes_lt (c : Char) : ∀ b ∈ utf8EncodeChar c, b < 256 := by
  have hlt := char_toNat_lt c
  rw [utf8EncodeChar]
  split_ifs <;> (intro b hb; simp at hb; omega)

theorem utf8Encode_bytes_lt (s : String) : ∀ b ∈ utf8Encode s, b < 256 := by
  rw [utf8Encode]
  induction s.data with
  | nil => simp
  | cons c cs ih =>
      intro b hb
      rw [List.foldr_cons] at hb
      rcases List.mem_append.mp hb with h1 | h2
      · exact utf8EncodeChar_bytes_lt c b h1
      · exact ih b h2

theorem packInt_bytes_lt (n : Int) (h1 : -2147483648 ≤ n) (h2 : n ≤ 4294967295) :
    ∀ b ∈ packInt n, b < 256 := by
  rw [packInt]
  split_ifs <;> (intro b hb; simp at hb; omega)

theorem packStr_bytes_lt (s : String) : ∀ b ∈ packStr s, b < 256 := by
  have hu := utf8Encode_bytes_lt s
  rw [packStr]
  split_ifs with h1 h2 h3 <;> intro b hb <;> simp at hb
  · rcases hb with hb | hb
    · omega
    · exact hu b hb
  · rcases hb with hb | hb | hb
    · omega
    · omega
    · exact hu b hb
  · rcases hb with hb | hb | hb | hb
    · omega
    · omega
    · omega
    · exact hu b hb
  · rcases hb with hb | hb | hb | hb | hb | hb
    · omega
    · omega
    · omega
    · omega
    · omega
    · exact hu b hb

theorem packArrHeader_bytes_lt (len : Nat) : ∀ b ∈ packArrHeader len, b < 256 := by
  rw [packArrHeader]
  split_ifs <;> (intro b hb; simp at hb; omega)

theorem packMapHeader_bytes_lt (len : Nat) : ∀ b ∈ packMapHeader len, b < 256 := by
  rw [packMapHeader]
  split_ifs <;> (intro b hb; simp at hb; omega)

mutual

theorem packVal_bytes_lt : ∀ v : JsVal, wfVal v = true → ∀ b ∈ packVal v, b < 256
  | .null, _ => by rw [packVal]; intro b hb; simp at hb; omega
  | .undef, _ => by rw [packVal]; intro b hb; simp at hb; omega
  | .bool false, _ => by rw [packVal]; intro b hb; simp at hb; omega
  | .bool true, _ => by rw [packVal]; intro b hb; simp at hb; omega
  | .num n, h => by
      rw [packVal]
      rw [wfVal] at h
      simp at h
      exact packInt_bytes_lt n h.1 h.2
  | .str s, _ => by rw [packVal]; exact packStr_bytes_lt s
  | .arr xs, h => by
      rw [packVal]
      rw [wfVal] at h
      simp at h
      intro b hb
      rcases List.mem_append.mp hb with h1 | h2
      · exact packArrHeader_bytes_lt xs.length b h1
      · exact packList_bytes_lt xs h.2 b h2
  | .obj fs, h => by
      rw [packVal]
      rw [wfVal] at h
      simp at h
      intro b hb
      rcases List.mem_append.mp hb with h1 | h2
      · exact packMapHeader_bytes_lt fs.length b h1
      · exact packFields_bytes_lt fs h.2 b h2
termination_by v => sizeOf v

theorem packList_bytes_lt : ∀ xs : List JsVal, wfList xs = true → ∀ b ∈ packList xs, b < 256
  | [], _ => by rw [packList]; intro b hb; simp at hb
  | v :: rest, h => by
      rw [packList]
      rw [wfList] at h
      simp at h
      intro b hb
      rcases List.mem_append.mp hb with h1 | h2
      · exact packVal_bytes_lt v h.1 b h1
      · exact packList_bytes_lt rest h.2 b h2
termination_by xs => sizeOf xs

theorem packFields_bytes_lt :
    ∀ fs : List (String × JsVal), wfFields fs = true → ∀ b ∈ packFields fs, b < 256
  | [], _ => by rw [packFields]; intro b hb; simp at hb
  | (k, v) :: rest, h => by
      rw [packFields]
      rw [wfFields] at h
      simp [and_assoc] at h
      intro b hb
      rcases List.mem_append.mp hb with h12 | h3
      · rcases List.mem_append.mp h12 with hsk | hsv
        · exact packStr_bytes_lt k b hsk
        · exact packVal_bytes_lt v h.2.1 b hsv
      · exact packFields_bytes_lt rest h.2.2 b h3
termination_by fs => sizeOf fs

end


/-- Signed reading of a 32-bit unsigned reassembled integer. -/
def intOfUInt32 (m : Nat) : Int :=
  if m < 2147483648 then (m : Int) else (m : Int) - 4294967296

/-- Take exactly `n` bytes from the front. -/
def readN : Nat → List Nat → Option (List Nat × List Nat)
  | 0, bs => some ([], bs)
  | _ + 1, [] => none
  | n + 1, b :: bs =>
      match readN n bs with
      | some (xs, rest) => some (b :: xs, rest)
      | none => none

theorem readN_exact : ∀ (xs rest : List Nat), readN xs.length (xs ++ rest) = some (xs, rest)
  | [], _ => rfl
  | x :: xs, rest => by
      show readN (xs.length + 1) (x :: (xs ++ rest)) = some (x :: xs, rest)
      rw [readN, readN_exact xs rest]

/-- Parse a msgpack string payload of the given byte length. -/
def unpackStrPayload (len : Nat) (bs : List Nat) : Option (JsVal × List Nat) :=
  match readN len bs with
  | some (sb, r) =>
      match utf8Decode sb with
      | some cs => some (.str (String.mk cs), r)
      | none => none
  | none => none

theorem unpackStrPayload_spec (s : String) (rest : List Nat) :
    unpackStrPayload (utf8Encode s).length (utf8Encode s ++ rest) = some (.str s, rest) := by
  simp only [unpackStrPayload]
  rw [readN_exact]
  show (match utf8Decode (utf8Encode s) with
    | some cs => some (JsVal.str (String.mk cs), rest)
    | none => none) = some (.str s, rest)
  rw [utf8Decode_encode]

/-- Wrap a parsed element list as an array value. -/
def wrapArr : Option (List JsVal × List Nat) → Option (JsVal × List Nat)
  | some (vs, r) => some (.arr vs, r)
  | none => none

/-- Wrap a parsed entry list as a map value. -/
def wrapObj : Option (List (String × JsVal) × List Nat) → Option (JsVal × List Nat)
  | some (fs, r) => some (.obj fs, r)
  | none => none

/-- Require a parsed map key to be a string. -/
def fieldKey : Option (JsVal × List Nat) → Option (String × List Nat)
  | some (JsVal.str k, r1) => some (k, r1)
  | _ => none

mutual

/-- Fuelled msgpack parser (one unit of fuel per nesting level). -/
def unpackValF : Nat → List Nat → Option (JsVal × List Nat)
  | 0, _ => none
  | _ + 1, [] => none
  | fuel + 1, b :: bs =>
      if b < 192 then
        if b ≤ 127 then some (.num (b : Int), bs)
        else if b ≤ 143 then wrapObj (unpackFieldsF fuel (b - 128) bs)
        else if b ≤ 159 then wrapArr (unpackListF fuel (b - 144) bs)
        else unpackStrPayload (b - 160) bs
      else if 224 ≤ b then
        if b ≤ 255 then some (.num ((b : Int) - 256), bs) else none
      else if b = 192 then some (.null, bs)
      else if b = 193 then some (.undef, bs)
      else if b = 194 then some (.bool false, bs)
      else if b = 195 then some (.bool true, bs)
      else if b = 204 then
        if 1 ≤ bs.length then some (.num (byteAt bs 0 : Int), bs.drop 1) else none
      else if b = 205 then
        if 2 ≤ bs.length then
          some (.num ((byteAt bs 0 * 256 + byteAt bs 1 : Nat) : Int), bs.drop 2)
        else none
      else if b = 206 then
        if 4 ≤ bs.length then
          some (.num ((((byteAt bs 0 * 256 + byteAt bs 1) * 256 + byteAt bs 2) * 256 +
            byteAt bs 3 : Nat) : Int), bs.drop 4)
        else none
      else if b = 208 then
        if 1 ≤ bs.length then some (.num ((byteAt bs 0 : Int) - 256), bs.drop 1) else none
      else if b = 209 then
        if 2 ≤ bs.length then
          some (.num ((byteAt bs 0 * 256 + byteAt bs 1 : Int) - 65536), bs.drop 2)
        else none
      else if b = 210 then
        if 4 ≤ bs.length then
          some (.num (intOfUInt32 (((byteAt bs 0 * 256 + byteAt bs 1) * 256 + byteAt bs 2) *
            256 + byteAt bs 3)), bs.drop 4)
        else none
      else if b = 217 then
        if 1 ≤ bs.length then unpackStrPayload (byteAt bs 0) (bs.drop 1) else none
      else if b = 218 then
        if 2 ≤ bs.length then unpackStrPayload (byteAt bs 0 * 256 + byteAt bs 1) (bs.drop 2)
        else none
      else if b = 219 then
        if 4 ≤ bs.length then
          unpackStrPayload (((byteAt bs 0 * 256 + byteAt bs 1) * 256 + byteAt bs 2) * 256 +
            byteAt bs 3) (bs.drop 4)
        else none
      else if b = 220 then
        if 2 ≤ bs.length then
          wrapArr (unpackListF fuel (byteAt bs 0 * 256 + byteAt bs 1) (bs.drop 2))
        else none
      else if b = 221 then
        if 4 ≤ bs.length then
          wrapArr (unpackListF fuel (((byteAt bs 0 * 256 + byteAt bs 1) * 256 + byteAt bs 2) *
            256 + byteAt bs 3) (bs.drop 4))
        else none
      else if b = 222 then
        if 2 ≤ bs.length then
          wrapObj (unpackFieldsF fuel (byteAt bs 0 * 256 + byteAt bs 1) (bs.drop 2))
        else none
      else if b = 223 then
        if 4 ≤ bs.length then
          wrapObj (unpackFieldsF fuel (((byteAt bs 0 * 256 + byteAt bs 1) * 256 +
            byteAt bs 2) * 256 + byteAt bs 3) (bs.drop 4))
        else none
      else none
termination_by fuel _ => (fuel, 0)

/-- Parse `n` msgpack array elements. -/
def unpackListF : Nat → Nat → List Nat → Option (List JsVal × List Nat)
  | _, 0, bs => some ([], bs)
  | fuel, n + 1, bs =>
      match unpackValF fuel bs with
      | some (v, r) =>
          match unpackListF fuel n r with
          | some (vs, r2) => some (v :: vs, r2)
          | none => none
      | none => none
termination_by fuel n _ => (fuel, n + 1)

/-- Parse `n` msgpack map entries with string keys. -/
def unpackFieldsF : Nat → Nat → List Nat → Option (List (String × JsVal) × List Nat)
  | _, 0, bs => some ([], bs)
  | fuel, n + 1, bs =>
      match fieldKey (unpackValF fuel bs) with
      | some (k, r1) =>
          match unpackValF fuel r1 with
          | some (v, r2) =>
              match unpackFieldsF fuel n r2 with
              | some (fs, r3) => some ((k, v) :: fs, r3)
              | none => none
          | none => none
      | none => none
termination_by fuel n _ => (fuel, n + 1)

end

/-- The msgpack integer encoding round-trips on the 32-bit range. -/
theorem unpackValF_packInt (fuel : Nat) (n : Int) (rest : List Nat)
    (h1 : -2147483648 ≤ n) (h2 : n ≤ 4294967295) :
    unpackValF (fuel + 1) (packInt n ++ rest) = some (.num n, rest) := by
  rw [packInt]
  by_cases c1 : 0 ≤ n ∧ n ≤ 127
  · rw [if_pos c1]
    show unpackValF (fuel + 1) (n.toNat :: rest) = some (.num n, rest)
    rw [unpackValF, if_pos (show n.toNat < 192 by omega),
      if_pos (show n.toNat ≤ 127 by omega)]
    have e : ((n.toNat : Nat) : Int) = n := by omega
    rw [e]
  · rw [if_neg c1]
    by_cases c2 : -32 ≤ n ∧ n < 0
    · rw [if_pos c2]
      show unpackValF (fuel + 1) ((256 + n).toNat :: rest) = some (.num n, rest)
      rw [unpackValF, if_neg (show ¬ (256 + n).toNat < 192 by omega),
        if_pos (show 224 ≤ (256 + n).toNat by omega),
        if_pos (show (256 + n).toNat ≤ 255 by omega)]
      have e : (((256 + n).toNat : Nat) : Int) - 256 = n := by omega
      rw [e]
    · rw [if_neg c2]
      by_cases c3 : 128 ≤ n ∧ n ≤ 255
      · rw [if_pos c3]
        show unpackValF (fuel + 1) (204 :: n.toNat :: rest) = some (.num n, rest)
        rw [unpackValF, if_neg (by norm_num), if_neg (by norm_num), if_neg (by norm_num),
          if_neg (by norm_num), if_neg (by norm_num), if_neg (by norm_num),
          if_pos (by norm_num), if_pos (show 1 ≤ (n.toNat :: rest).length by simp)]
        show some (JsVal.num ((n.toNat : Nat) : Int), rest) = some (JsVal.num n, rest)
        have e : ((n.toNat : Nat) : Int) = n := by omega
        rw [e]
      · rw [if_neg c3]
        by_cases c4 : 256 ≤ n ∧ n ≤ 65535
        · rw [if_pos c4]
          show unpackValF (fuel + 1) (205 :: n.toNat / 256 :: n.toNat % 256 :: rest)
              = some (.num n, rest)
          rw [unpackValF, if_neg (by norm_num), if_neg (by norm_num), if_neg (by norm_num),
            if_neg (by norm_num), if_neg (by norm_num), if_neg (by norm_num),
            if_neg (by norm_num), if_pos (by norm_num),
            if_pos (show 2 ≤ (n.toNat / 256 :: n.toNat % 256 :: rest).length by simp)]
          show some (JsVal.num ((n.toNat / 256 * 256 + n.toNat % 256 : Nat) : Int), rest)
              = some (JsVal.num n, rest)
          have e : ((n.toNat / 256 * 256 + n.toNat % 256 : Nat) : Int) = n := by omega
          rw [e]
        · rw [if_neg c4]
          by_cases c5 : 65536 ≤ n ∧ n ≤ 4294967295
          · rw [if_pos c5]
            show unpackValF (fuel + 1) (206 :: n.toNat / 16777216 % 256 ::
                n.toNat / 65536 % 256 :: n.toNat / 256 % 256 :: n.toNat % 256 :: rest)
                = some (.num n, rest)
            rw [unpackValF, if_neg (by norm_num), if_neg (by norm_num), if_neg (by norm_num),
              if_neg (by norm_num), if_neg (by norm_num), if_neg (by norm_num),
              if_neg (by norm_num), if_neg (by norm_num), if_pos (by norm_num),
              if_pos (show 4 ≤ (n.toNat / 16777216 % 256 :: n.toNat / 65536 % 256 ::
                n.toNat / 256 % 256 :: n.toNat % 256 :: rest).length by simp)]
            show some (JsVal.num (((n.toNat / 16777216 % 256 * 256 + n.toNat / 65536 % 256) *
                256 + n.toNat / 256 % 256) * 256 + n.toNat % 256 : Nat), rest)
                = some (JsVal.num n, rest)
            have e : ((((n.toNat / 16777216 % 256 * 256 + n.toNat / 65536 % 256) * 256 +
                n.toNat / 256 % 256) * 256 + n.toNat % 256 : Nat) : Int) = n := by omega
            rw [e]
          · rw [if_neg c5]
            by_cases c6 : -128 ≤ n ∧ n < -32
            · rw [if_pos c6]
              show unpackValF (fuel + 1) (208 :: (256 + n).toNat :: rest)
                  = some (.num n, rest)
              rw [unpackValF, if_neg (by norm_num), if_neg (by norm_num),
                if_neg (by norm_num), if_neg (by norm_num), if_neg (by norm_num),
                if_neg (by norm_num), if_neg (by norm_num), if_neg (by norm_num),
                if_neg (by norm_num), if_pos (by norm_num),
                if_pos (show 1 ≤ ((256 + n).toNat :: rest).length by simp)]
              show some (JsVal.num (((256 + n).toNat : Nat) - 256 : Int), rest)
                  = some (JsVal.num n, rest)
              have e : (((256 + n).toNat : Nat) - 256 : Int) = n := by omega
              rw [e]
            · rw [if_neg c6]
              by_cases c7 : -32768 ≤ n ∧ n < -128
              · rw [if_pos c7]
                show unpackValF (fuel + 1) (209 :: (65536 + n).toNat / 256 ::
                    (65536 + n).toNat % 256 :: rest) = some (.num n, rest)
                rw [unpackValF, if_neg (by norm_num), if_neg (by norm_num),
                  if_neg (by norm_num), if_neg (by norm_num), if_neg (by norm_num),
                  if_neg (by norm_num), if_neg (by norm_num), if_neg (by norm_num),
                  if_neg (by norm_num), if_neg (by norm_num), if_pos (by norm_num),
                  if_pos (show 2 ≤ ((65536 + n).toNat / 256 ::
                    (65536 + n).toNat % 256 :: rest).length by simp)]
                show some (JsVal.num (((65536 + n).toNat / 256 * 256 +
                    (65536 + n).toNat % 256 : Nat) - 65536 : Int), rest)
                    = some (JsVal.num n, rest)
                have e : (((65536 + n).toNat / 256 * 256 +
                    (65536 + n).toNat % 256 : Nat) - 65536 : Int) = n := by omega
                rw [e]
              · rw [if_neg c7]
                have hn : -2147483648 ≤ n ∧ n < -32768 := by omega
                show unpackValF (fuel + 1) (210 ::
                    ((n % 4294967296 + 4294967296) % 4294967296).toNat / 16777216 % 256 ::
                    ((n % 4294967296 + 4294967296) % 4294967296).toNat / 65536 % 256 ::
                    ((n % 4294967296 + 4294967296) % 4294967296).toNat / 256 % 256 ::
                    ((n % 4294967296 + 4294967296) % 4294967296).toNat % 256 :: rest)
                    = some (.num n, rest)
                have key : ∀ (x1 x2 x3 x4 : Nat) (r2 : List Nat),
                    unpackValF (fuel + 1) (210 :: x1 :: x2 :: x3 :: x4 :: r2)
                    = some (JsVal.num (intOfUInt32 (((x1 * 256 + x2) * 256 + x3) * 256 + x4)),
                        r2) := by
                  intro x1 x2 x3 x4 r2
                  rw [unpackValF, if_neg (by norm_num), if_neg (by norm_num),
                    if_neg (by norm_num), if_neg (by norm_num), if_neg (by norm_num),
                    if_neg (by norm_num), if_neg (by norm_num), if_neg (by norm_num),
                    if_neg (by norm_num), if_neg (by norm_num), if_neg (by norm_num),
                    if_pos (by norm_num), if_pos (by simp)]
                  rfl
                rw [key]
                have hm : ((n % 4294967296 + 4294967296) % 4294967296).toNat
                    = (n + 4294967296).toNat := by omega
                rw [hm, intOfUInt32, if_neg (by omega)]
                have e : (((n + 4294967296).toNat / 16777216 % 256 * 256 +
                    (n + 4294967296).toNat / 65536 % 256) * 256 +
                    (n + 4294967296).toNat / 256 % 256) * 256 +
                    (n + 4294967296).toNat % 256 = (n + 4294967296).toNat := by omega
                rw [e]
                have e2 : (((n + 4294967296).toNat : Nat) : Int) - 4294967296 = n := by omega
                rw [e2]

/-- The msgpack string encoding round-trips. -/
theorem unpackValF_packStr (fuel : Nat) (s : String) (rest : List Nat)
    (hw : (utf8Encode s).length < 4294967296) :
    unpackValF (fuel + 1) (packStr s ++ rest) = some (.str s, rest) := by
  simp only [packStr]
  by_cases hc1 : (utf8Encode s).length < 32
  · rw [if_pos hc1]
    show unpackValF (fuel + 1) ((160 + (utf8Encode s).length) :: (utf8Encode s ++ rest))
        = some (.str s, rest)
    rw [unpackValF, if_pos (by omega), if_neg (by omega), if_neg (by omega),
      if_neg (by omega)]
    have e : 160 + (utf8Encode s).length - 160 = (utf8Encode s).length := by omega
    rw [e, unpackStrPayload_spec]
  · rw [if_neg hc1]
    by_cases hc2 : (utf8Encode s).length < 256
    · rw [if_pos hc2]
      show unpackValF (fuel + 1)
          (217 :: (utf8Encode s).length :: (utf8Encode s ++ rest)) = some (.str s, rest)
      rw [unpackValF, if_neg (by norm_num), if_neg (by norm_num), if_neg (by norm_num),
        if_neg (by norm_num), if_neg (by norm_num), if_neg (by norm_num),
        if_neg (by norm_num), if_neg (by norm_num), if_neg (by norm_num),
        if_neg (by norm_num), if_neg (by norm_num), if_neg (by norm_num),
        if_pos (by norm_num), if_pos (by simp)]
      exact unpackStrPayload_spec s rest
    · rw [if_neg hc2]
      by_cases hc3 : (utf8Encode s).length < 65536
      · rw [if_pos hc3]
        show unpackValF (fuel + 1) (218 :: (utf8Encode s).length / 256 ::
            (utf8Encode s).length % 256 :: (utf8Encode s ++ rest)) = some (.str s, rest)
        rw [unpackValF, if_neg (by norm_num), if_neg (by norm_num), if_neg (by norm_num),
          if_neg (by norm_num), if_neg (by norm_num), if_neg (by norm_num),
          if_neg (by norm_num), if_neg (by norm_num), if_neg (by norm_num),
          if_neg (by norm_num), if_neg (by norm_num), if_neg (by norm_num),
          if_neg (by norm_num), if_pos (by norm_num), if_pos (by simp)]
        show unpackStrPayload ((utf8Encode s).length / 256 * 256 +
            (utf8Encode s).length % 256) (utf8Encode s ++ rest) = some (.str s, rest)
        have e : (utf8Encode s).length / 256 * 256 + (utf8Encode s).length % 256
            = (utf8Encode s).length := by omega
        rw [e]
        exact unpackStrPayload_spec s rest
      · rw [if_neg hc3]
        show unpackValF (fuel + 1) (219 :: (utf8Encode s).length / 16777216 % 256 ::
            (utf8Encode s).length / 65536 % 256 :: (utf8Encode s).length / 256 % 256 ::
            (utf8Encode s).length % 256 :: (utf8Encode s ++ rest)) = some (.str s, rest)
        rw [unpackValF, if_neg (by norm_num), if_neg (by norm_num), if_neg (by norm_num),
          if_neg (by norm_num), if_neg (by norm_num), if_neg (by norm_num),
          if_neg (by norm_num), if_neg (by norm_num), if_neg (by norm_num),
          if_neg (by norm_num), if_neg (by norm_num), if_neg (by norm_num),
          if_neg (by norm_num), if_neg (by norm_num), if_pos (by norm_num),
          if_pos (by simp)]
        show unpackStrPayload ((((utf8Encode s).length / 16777216 % 256 * 256 +
            (utf8Encode s).length / 65536 % 256) * 256 +
            (utf8Encode s).length / 256 % 256) * 256 + (utf8Encode s).length % 256)
            (utf8Encode s ++ rest) = some (.str s, rest)
        have e : (((utf8Encode s).length / 16777216 % 256 * 256 +
            (utf8Encode s).length / 65536 % 256) * 256 +
            (utf8Encode s).length / 256 % 256) * 256 + (utf8Encode s).length % 256
            = (utf8Encode s).length := by omega
        rw [e]
        exact unpackStrPayload_spec s rest

theorem unpack_fixmap (fuel b : Nat) (bs : List Nat) (h1 : 128 ≤ b) (h2 : b ≤ 143) :
    unpackValF (fuel + 1) (b :: bs) = wrapObj (unpackFieldsF fuel (b - 128) bs) := by
  rw [unpackValF, if_pos (by omega), if_neg (by omega), if_pos (by omega)]

theorem unpack_fixarr (fuel b : Nat) (bs : List Nat) (h1 : 144 ≤ b) (h2 : b ≤ 159) :
    unpackValF (fuel + 1) (b :: bs) = wrapArr (unpackListF fuel (b - 144) bs) := by
  rw [unpackValF, if_pos (by omega), if_neg (by omega), if_neg (by omega),
    if_pos (by omega)]

theorem unpack_arr16 (fuel x1 x2 : Nat) (r : List Nat) :
    unpackValF (fuel + 1) (220 :: x1 :: x2 :: r)
      = wrapArr (unpackListF fuel (x1 * 256 + x2) r) := by
  rw [unpackValF, if_neg (by norm_num), if_neg (by norm_num), if_neg (by norm_num),
    if_neg (by norm_num), if_neg (by norm_num), if_neg (by norm_num),
    if_neg (by norm_num), if_neg (by norm_num), if_neg (by norm_num),
    if_neg (by norm_num), if_neg (by norm_num), if_neg (by norm_num),
    if_neg (by norm_num), if_neg (by norm_num), if_neg (by norm_num),
    if_pos (by norm_num), if_pos (by simp)]
  rfl

theorem unpack_arr32 (fuel x1 x2 x3 x4 : Nat) (r : List Nat) :
    unpackValF (fuel + 1) (221 :: x1 :: x2 :: x3 :: x4 :: r)
      = wrapArr (unpackListF fuel (((x1 * 256 + x2) * 256 + x3) * 256 + x4) r) := by
  rw [unpackValF, if_neg (by norm_num), if_neg (by norm_num), if_neg (by norm_num),
    if_neg (by norm_num), if_neg (by norm_num), if_neg (by norm_num),
    if_neg (by norm_num), if_neg (by norm_num), if_neg (by norm_num),
    if_neg (by norm_num), if_neg (by norm_num), if_neg (by norm_num),
    if_neg (by norm_num), if_neg (by norm_num), if_neg (by norm_num),
    if_neg (by norm_num), if_pos (by norm_num), if_pos (by simp)]
  rfl

theorem unpack_map16 (fuel x1 x2 : Nat) (r : List Nat) :
    unpackValF (fuel + 1) (222 :: x1 :: x2 :: r)
      = wrapObj (unpackFieldsF fuel (x1 * 256 + x2) r) := by
  rw [unpackValF, if_neg (by norm_num), if_neg (by norm_num), if_neg (by norm_num),
    if_neg (by norm_num), if_neg (by norm_num), if_neg (by norm_num),
    if_neg (by norm_num), if_neg (by norm_num), if_neg (by norm_num),
    if_neg (by norm_num), if_neg (by norm_num), if_neg (by norm_num),
    if_neg (by norm_num), if_neg (by norm_num), if_neg (by norm_num),
    if_neg (by norm_num), if_neg (by norm_num), if_pos (by norm_num), if_pos (by simp)]
  rfl

theorem unpack_map32 (fuel x1 x2 x3 x4 : Nat) (r : List Nat) :
    unpackValF (fuel + 1) (223 :: x1 :: x2 :: x3 :: x4 :: r)
      = wrapObj (unpackFieldsF fuel (((x1 * 256 + x2) * 256 + x3) * 256 + x4) r) := by
  rw [unpackValF, if_neg (by norm_num), if_neg (by norm_num), if_neg (by norm_num),
    if_neg (by norm_num), if_neg (by norm_num), if_neg (by norm_num),
    if_neg (by norm_num), if_neg (by norm_num), if_neg (by norm_num),
    if_neg (by norm_num), if_neg (by norm_num), if_neg (by norm_num),
    if_neg (by norm_num), if_neg (by norm_num), if_neg (by norm_num),
    if_neg (by norm_num), if_neg (by norm_num), if_neg (by norm_num),
    if_pos (by norm_num), if_pos (by simp)]
  rfl

mutual

/-- The msgpack encoding round-trips on well-formed values. -/
theorem unpackValF_pack : ∀ (v : JsVal) (fuel : Nat) (rest : List Nat),
    wfVal v = true → sizeOf v ≤ fuel →
    unpackValF (fuel + 1) (packVal v ++ rest) = some (v, rest)
  | .null, fuel, rest, _, _ => by
      rw [packVal]
      show unpackValF (fuel + 1) (192 :: rest) = some (.null, rest)
      rw [unpackValF, if_neg (by norm_num), if_neg (by norm_num), if_pos (by norm_num)]
  | .undef, fuel, rest, _, _ => by
      rw [packVal]
      show unpackValF (fuel + 1) (193 :: rest) = some (.undef, rest)
      rw [unpackValF, if_neg (by norm_num), if_neg (by norm_num), if_neg (by norm_num),
        if_pos (by norm_num)]
  | .bool false, fuel, rest, _, _ => by
      rw [packVal]
      show unpackValF (fuel + 1) (194 :: rest) = some (.bool false, rest)
      rw [unpackValF, if_neg (by norm_num), if_neg (by norm_num), if_neg (by norm_num),
        if_neg (by norm_num), if_pos (by norm_num)]
  | .bool true, fuel, rest, _, _ => by
      rw [packVal]
      show unpackValF (fuel + 1) (195 :: rest) = some (.bool true, rest)
      rw [unpackValF, if_neg (by norm_num), if_neg (by norm_num), if_neg (by norm_num),
        if_neg (by norm_num), if_neg (by norm_num), if_pos (by norm_num)]
  | .num n, fuel, rest, h, _ => by
      rw [packVal]
      rw [wfVal] at h
      simp at h
      exact unpackValF_packInt fuel n rest h.1 h.2
  | .str s, fuel, rest, h, _ => by
      rw [packVal]
      rw [wfVal] at h
      simp at h
      exact unpackValF_packStr fuel s rest h
  | .arr xs, fuel, rest, h, hf => by
      rw [packVal]
      rw [wfVal] at h
      simp at h
      have hsz : 1 + sizeOf xs ≤ fuel := by
        have : sizeOf (JsVal.arr xs) = 1 + sizeOf xs := by simp
        omega
      have helem : ∀ x ∈ xs, sizeOf x < fuel := by
        intro x hx
        have := List.sizeOf_lt_of_mem hx
        omega
      rw [List.append_assoc, packArrHeader]
      by_cases hl1 : xs.length < 16
      · rw [if_pos hl1]
        show unpackValF (fuel + 1) ((144 + xs.length) :: (packList xs ++ rest))
            = some (.arr xs, rest)
        rw [unpack_fixarr fuel _ _ (by omega) (by omega)]
        have e : 144 + xs.length - 144 = xs.length := by omega
        rw [e, unpackListF_pack xs fuel rest h.2 helem]
      · rw [if_neg hl1]
        by_cases hl2 : xs.length < 65536
        · rw [if_pos hl2]
          show unpackValF (fuel + 1) (220 :: xs.length / 256 :: xs.length % 256 ::
              (packList xs ++ rest)) = some (.arr xs, rest)
          rw [unpack_arr16]
          have e : xs.length / 256 * 256 + xs.length % 256 = xs.length := by omega
          rw [e, unpackListF_pack xs fuel rest h.2 helem]
        · rw [if_neg hl2]
          show unpackValF (fuel + 1) (221 :: xs.length / 16777216 % 256 ::
              xs.length / 65536 % 256 :: xs.length / 256 % 256 :: xs.length % 256 ::
              (packList xs ++ rest)) = some (.arr xs, rest)
          rw [unpack_arr32]
          have e : ((xs.length / 16777216 % 256 * 256 + xs.length / 65536 % 256) * 256 +
              xs.length / 256 % 256) * 256 + xs.length % 256 = xs.length := by
            have := h.1
            omega
          rw [e, unpackListF_pack xs fuel rest h.2 helem]
  | .obj fs, fuel, rest, h, hf => by
      rw [packVal]
      rw [wfVal] at h
      simp at h
      have hsz : 1 + sizeOf fs ≤ fuel := by
        have : sizeOf (JsVal.obj fs) = 1 + sizeOf fs := by simp
        omega
      have helem : ∀ p ∈ fs, sizeOf p.2 < fuel := by
        intro p hp
        have h1 := List.sizeOf_lt_of_mem hp
        obtain ⟨k, v⟩ := p
        have h2 : sizeOf (k, v) = 1 + sizeOf k + sizeOf v := by simp
        simp only at h2 ⊢
        omega
      rw [List.append_assoc, packMapHeader]
      by_cases hl1 : fs.length < 16
      · rw [if_pos hl1]
        show unpackValF (fuel + 1) ((128 + fs.length) :: (packFields fs ++ rest))
            = some (.obj fs, rest)
        rw [unpack_fixmap fuel _ _ (by omega) (by omega)]
        have e : 128 + fs.length - 128 = fs.length := by omega
        rw [e, unpackFieldsF_pack fs fuel rest h.2 helem]
      · rw [if_neg hl1]
        by_cases hl2 : fs.length < 65536
        · rw [if_pos hl2]
          show unpackValF (fuel + 1) (222 :: fs.length / 256 :: fs.length % 256 ::
              (packFields fs ++ rest)) = some (.obj fs, rest)
          rw [unpack_map16]
          have e : fs.length / 256 * 256 + fs.length % 256 = fs.length := by omega
          rw [e, unpackFieldsF_pack fs fuel rest h.2 helem]
        · rw [if_neg hl2]
          show unpackValF (fuel + 1) (223 :: fs.length / 16777216 % 256 ::
              fs.length / 65536 % 256 :: fs.length / 256 % 256 :: fs.length % 256 ::
              (packFields fs ++ rest)) = some (.obj fs, rest)
          rw [unpack_map32]
          have e : ((fs.length / 16777216 % 256 * 256 + fs.length / 65536 % 256) * 256 +
              fs.length / 256 % 256) * 256 + fs.length % 256 = fs.length := by
            have := h.1
            omega
          rw [e, unpackFieldsF_pack fs fuel rest h.2 helem]
termination_by v => sizeOf v

/-- Array elements round-trip. -/
theorem unpackListF_pack : ∀ (xs : List JsVal) (fuel : Nat) (rest : List Nat),
    wfList xs = true → (∀ x ∈ xs, sizeOf x < fuel) →
    wrapArr (unpackListF fuel xs.length (packList xs ++ rest)) = some (.arr xs, rest)
  | [], fuel, rest, _, _ => by
      rw [packList]
      show wrapArr (unpackListF fuel 0 rest) = some (.arr [], rest)
      rw [unpackListF]
      rfl
  | x :: xs, fuel, rest, h, helem => by
      rw [wfList] at h
      simp at h
      have hx : sizeOf x < fuel := helem x (by simp)
      cases fuel with
      | zero => omega
      | succ f =>
          rw [packList, List.append_assoc]
          show wrapArr (unpackListF (f + 1) (xs.length + 1)
              (packVal x ++ (packList xs ++ rest))) = some (.arr (x :: xs), rest)
          rw [unpackListF, unpackValF_pack x f (packList xs ++ rest) h.1 (by omega)]
          have hxs : ∀ y ∈ xs, sizeOf y < f + 1 := fun y hy => helem y (by simp [hy])
          have ih := unpackListF_pack xs (f + 1) rest h.2 hxs
          show wrapArr (match unpackListF (f + 1) xs.length (packList xs ++ rest) with
            | some (vs, r2) => some (x :: vs, r2)
            | none => none) = some (.arr (x :: xs), rest)
          cases hres : unpackListF (f + 1) xs.length (packList xs ++ rest) with
          | none => rw [hres] at ih; cases ih
          | some pr =>
              obtain ⟨vs, r2⟩ := pr
              rw [hres] at ih
              have : JsVal.arr vs = JsVal.arr xs ∧ r2 = rest := by
                have := Option.some.inj ih
                exact ⟨congrArg Prod.fst this, congrArg Prod.snd this⟩
              obtain ⟨hvs, hr2⟩ := this
              have hvs2 : vs = xs := by
                injection hvs
              rw [hvs2, hr2]
              exact rfl
termination_by xs => sizeOf xs

/-- Map entries round-trip. -/
theorem unpackFieldsF_pack : ∀ (fs : List (String × JsVal)) (fuel : Nat) (rest : List Nat),
    wfFields fs = true → (∀ p ∈ fs, sizeOf p.2 < fuel) →
    wrapObj (unpackFieldsF fuel fs.length (packFields fs ++ rest)) = some (.obj fs, rest)
  | [], fuel, rest, _, _ => by
      rw [packFields]
      show wrapObj (unpackFieldsF fuel 0 rest) = some (.obj [], rest)
      rw [unpackFieldsF]
      rfl
  | (k, v) :: fs, fuel, rest, h, helem => by
      rw [wfFields] at h
      simp [and_assoc] at h
      have hv : sizeOf v < fuel := helem (k, v) (by simp)
      cases fuel with
      | zero => omega
      | succ f =>
          rw [packFields, List.append_assoc, List.append_assoc]
          show wrapObj (unpackFieldsF (f + 1) (fs.length + 1)
              (packStr k ++ (packVal v ++ (packFields fs ++ rest))))
              = some (.obj ((k, v) :: fs), rest)
          rw [unpackFieldsF, unpackValF_packStr f k _ h.1]
          show wrapObj (match unpackValF (f + 1) (packVal v ++ (packFields fs ++ rest)) with
            | some (v2, r2) =>
                match unpackFieldsF (f + 1) fs.length r2 with
                | some (fs2, r3) => some ((k, v2) :: fs2, r3)
                | none => none
            | none => none) = some (.obj ((k, v) :: fs), rest)
          rw [unpackValF_pack v f (packFields fs ++ rest) h.2.1 (by omega)]
          have hfs : ∀ p ∈ fs, sizeOf p.2 < f + 1 := fun p hp => helem p (by simp [hp])
          have ih := unpackFieldsF_pack fs (f + 1) rest h.2.2 hfs
          show wrapObj (match unpackFieldsF (f + 1) fs.length (packFields fs ++ rest) with
            | some (fs2, r3) => some ((k, v) :: fs2, r3)
            | none => none) = some (.obj ((k, v) :: fs), rest)
          cases hres : unpackFieldsF (f + 1) fs.length (packFields fs ++ rest) with
          | none => rw [hres] at ih; cases ih
          | some pr =>
              obtain ⟨fs2, r3⟩ := pr
              rw [hres] at ih
              have hp : JsVal.obj fs2 = JsVal.obj fs ∧ r3 = rest := by
                have := Option.some.inj ih
                exact ⟨congrArg Prod.fst this, congrArg Prod.snd this⟩
              obtain ⟨hfs2, hr3⟩ := hp
              have hfs3 : fs2 = fs := by
                injection hfs2
              rw [hfs3, hr3]
              exact rfl
termination_by fs => sizeOf fs

end

/-- msgpack encoding is injective on well-formed values. -/
theorem packVal_inj (v1 v2 : JsVal) (h1 : wfVal v1 = true) (h2 : wfVal v2 = true)
    (he : packVal v1 = packVal v2) : v1 = v2 := by
  have r1 := unpackValF_pack v1 (max (sizeOf v1) (sizeOf v2)) [] h1 (le_max_left _ _)
  have r2 := unpackValF_pack v2 (max (sizeOf v1) (sizeOf v2)) [] h2 (le_max_right _ _)
  rw [he] at r1
  rw [r2] at r1
  have hp := Option.some.inj r1
  exact (congrArg Prod.fst hp).symm

/-- Splitting a dot-joined string at the first dot. -/
theorem firstDotSplit : ∀ (a1 a2 b1 b2 : List Char),
    ('.' : Char) ∉ a1 → ('.' : Char) ∉ a2 →
    a1 ++ '.' :: b1 = a2 ++ '.' :: b2 → a1 = a2 ∧ b1 = b2
  | [], a2, b1, b2, _, h2, he => by
      cases a2 with
      | nil => simpa using he
      | cons c t =>
          simp at he
          exact absurd (he.1 ▸ List.mem_cons_self c t) h2
  | c :: t, a2, b1, b2, h1, h2, he => by
      cases a2 with
      | nil =>
          simp at he
          exact absurd (he.1 ▸ List.mem_cons_self c t) h1
      | cons c2 t2 =>
          simp at he
          obtain ⟨hc, ht⟩ := he
          have h1' : ('.' : Char) ∉ t := fun hm => h1 (List.mem_cons_of_mem _ hm)
          have h2' : ('.' : Char) ∉ t2 := fun hm => h2 (List.mem_cons_of_mem _ hm)
          obtain ⟨hA, hB⟩ := firstDotSplit t t2 b1 b2 h1' h2' ht
          exact ⟨by rw [hc, hA], hB⟩

/-- Splitting a dot-joined string at the last dot. -/
theorem lastDotSplit (c1 c2 e1 e2 : List Char) (h1 : ('.' : Char) ∉ e1)
    (h2 : ('.' : Char) ∉ e2) (he : c1 ++ '.' :: e1 = c2 ++ '.' :: e2) :
    c1 = c2 ∧ e1 = e2 := by
  have hrev : e1.reverse ++ '.' :: c1.reverse = e2.reverse ++ '.' :: c2.reverse := by
    have hr := congrArg List.reverse he
    simpa [List.reverse_append, List.append_assoc] using hr
  obtain ⟨hE, hC⟩ := firstDotSplit e1.reverse e2.reverse c1.reverse c2.reverse
    (by simpa using h1) (by simpa using h2) hrev
  constructor
  · have hc := congrArg List.reverse hC
    simpa using hc
  · have he2 := congrArg List.reverse hE
    simpa using he2

theorem createQueryHash_data (q : PayloadQuery) :
    (createQueryHash q).data = q.type.data ++ '.' ::
      (q.collection.data ++ '.' ::
        base64UrlOf (packVal (JsVal.obj (stableParams q)))) := by
  rw [createQueryHash]
  simp [String.data_append]

/-- C6 (amended core): the fingerprint is deterministically injective on the
normalized query triple — if two queries with dot-free type strings and
32-bit-bounded parameters hash identically, they agree on type, collection
and the whole normalized parameter object (where, sort, limit, populate,
id).  Separation therefore holds exactly, not merely with overwhelming
probability — but only for the fingerprinted fields; `page`, `depth`,
`locale` and `fallbackLocale` are never part of the fingerprint (see the
counterexample). -/
theorem fingerprint_separates (q1 q2 : PayloadQuery)
    (hw1 : wfVal (JsVal.obj (stableParams q1)) = true)
    (hw2 : wfVal (JsVal.obj (stableParams q2)) = true)
    (ht1 : ('.' : Char) ∉ q1.type.data) (ht2 : ('.' : Char) ∉ q2.type.data)
    (heq : createQueryHash q1 = createQueryHash q2) :
    q1.type = q2.type ∧ q1.collection = q2.collection ∧
      stableParams q1 = stableParams q2 := by
  have hd := congrArg String.data heq
  rw [createQueryHash_data q1, createQueryHash_data q2] at hd
  obtain ⟨hT, hrest⟩ := firstDotSplit _ _ _ _ ht1 ht2 hd
  have hb1 := packVal_bytes_lt _ hw1
  have hb2 := packVal_bytes_lt _ hw2
  obtain ⟨hC, hE⟩ := lastDotSplit _ _ _ _ (base64UrlOf_ne_dot _ hb1)
    (base64UrlOf_ne_dot _ hb2) hrest
  have hpack : packVal (JsVal.obj (stableParams q1))
      = packVal (JsVal.obj (stableParams q2)) := by
    have d1 := decodeB64Url_of _ hb1
    have d2 := decodeB64Url_of _ hb2
    rw [hE] at d1
    rw [d2] at d1
    exact (Option.some.inj d1).symm
  have hobj := packVal_inj _ _ hw1 hw2 hpack
  refine ⟨congrArg String.mk hT, congrArg String.mk hC, ?_⟩
  injection hobj

/-- Concrete queries for the separation witness: an empty where object and
differing pages, so the two queries are syntactically different but have
equal fingerprints; the theorem then forces their normalized triples to
coincide. -/
def c6wQ1 : PayloadQuery :=
  { type := "find", collection := "tasks", «where» := JsVal.obj [],
    page := JsVal.num 1 }

def c6wQ2 : PayloadQuery :=
  { type := "find", collection := "tasks", page := JsVal.num 2 }

/-- Witness for `fingerprint_separates` at concrete queries. -/
theorem fingerprint_separates_witness :
    createQueryHash c6wQ1 = createQueryHash c6wQ2 ∧
      (c6wQ1.type = c6wQ2.type ∧ c6wQ1.collection = c6wQ2.collection ∧
        stableParams c6wQ1 = stableParams c6wQ2) :=
  ⟨by decide,
    fingerprint_separates c6wQ1 c6wQ2 (by decide) (by decide) (by decide) (by decide)
      (by decide)⟩

end PayloadSync
